import Mathlib

/-!
Verification of the ferny interaction protocol and its agent
(allisonkarlitskaya/ferny) against its natural-language specification.

The development shallowly embeds the parts of the source that the claims
are about:

* the byte-level framing loop of `InteractionAgent._got_data`
  (src/ferny/interaction_agent.py), with frames recognised by the regex
  `\0ferny\0([^\n]*)\0\0\n` (`COMMAND_RE`);
* the askpass client datagram of `interaction_client.interact`;
* the ssh stderr error classifier (`get_exception_for_ssh_stderr`);
* the ssh prompt classifier (`ssh_askpass.categorize_ssh_prompt`);
* the disconnect arbitration state machine of `FernyTransport`
  (src/ferny/transport.py);
* the result / completion life-cycle of `InteractionAgent`
  (src/ferny/interaction_agent.py).

Bytes are modelled as natural numbers (their ASCII values); byte strings
as `List Nat`.  Python text strings are modelled as Lean `String` or
`List Char` as convenient.
-/

namespace Ferny

/-- Generic executable check that `p` occurs at the start of `l`
(used in place of library prefix tests to keep the development
self-contained). -/
def leadsWith [DecidableEq α] : List α → List α → Bool
  | [], _ => true
  | _ :: _, [] => false
  | a :: ps, b :: ls => a = b && leadsWith ps ls

/-- Generic executable check that `pat` occurs contiguously anywhere in `l`. -/
def hasSeq [DecidableEq α] (pat : List α) : List α → Bool
  | [] => leadsWith pat []
  | b :: ls => leadsWith pat (b :: ls) || hasSeq pat ls

/-- The frame magic `\0ferny\0` (bytes of `COMMAND_RE`,
interaction_agent.py line 34). -/
def magic : List Nat := [0, 102, 101, 114, 110, 121, 0]

/-- Split a byte string at its first LF (10): `some (a, b)` when the
string is `a ++ 10 :: b` with `10 ∉ a`; `none` when it has no LF.
Helper for the semantics of the `[^\n]*` group of `COMMAND_RE`: a match
of the regex necessarily ends at the first LF at or after its start. -/
def takeToNl : List Nat → Option (List Nat × List Nat)
  | [] => none
  | c :: t =>
    if c = 10 then some ([], t)
    else match takeToNl t with
      | some (a, b) => some (c :: a, b)
      | none => none

/-- The trailer check of a `COMMAND_RE` match: the bytes between the
magic and the LF must end in the two NULs; `some payload` strips them. -/
def tailPayload (a : List Nat) : Option (List Nat) :=
  match a.reverse with
  | 0 :: 0 :: revp => some revp.reverse
  | _ => none

/-- Semantics of a `COMMAND_RE` match anchored at the start of `s`:
`some (payload, rest)` when `s = \0ferny\0 ++ payload ++ \0\0\n ++ rest`
with `payload` LF-free.  Because neither the magic, the payload
(`[^\n]*`) nor the two NULs may contain LF, the terminating LF of a
match is exactly the first LF of the string, so the match (and the
greedy capture) is uniquely determined; this function computes it. -/
def matchAt (s : List Nat) : Option (List Nat × List Nat) :=
  if leadsWith magic s then
    match takeToNl (s.drop 7) with
    | some (a, b) =>
      match tailPayload a with
      | some p => some (p, b)
      | none => none
    | none => none
  else none

/-- Leftmost `COMMAND_RE` match: scan `s` from the left for the first
position where `matchAt` succeeds, returning the bytes before the match
(the "stderr chunk"), the captured payload, and the bytes after the
match.  `acc` holds the reversed bytes already scanned. -/
def scanFrame (acc : List Nat) : List Nat → Option (List Nat × List Nat × List Nat)
  | [] => none
  | c :: rest =>
    match matchAt (c :: rest) with
    | some (payload, after) => some (acc.reverse, payload, after)
    | none => scanFrame (c :: acc) rest

/-- Fuelled iteration of leftmost matching; with fuel at least the length
of the string this computes exactly Python's `COMMAND_RE.split`
decomposition: the list of (preceding stderr chunk, captured payload)
pairs, in stream order, and the unmatched tail. -/
def splitFramesF : Nat → List Nat → List (List Nat × List Nat) × List Nat
  | 0, s => ([], s)
  | fuel + 1, s =>
    match scanFrame [] s with
    | none => ([], s)
    | some (pre, payload, rest) =>
      ((pre, payload) :: (splitFramesF fuel rest).1, (splitFramesF fuel rest).2)

/-- `COMMAND_RE.split` as used by `InteractionAgent._got_data`
(interaction_agent.py lines 307-311): the "remote" command invocations
`(stderr chunk, payload)` extracted from the buffer, and the new buffer
(the unmatched tail).  Each successful match consumes at least ten bytes,
so `s.length` is always enough fuel. -/
def splitFrames (s : List Nat) : List (List Nat × List Nat) × List Nat :=
  splitFramesF s.length s

/-- One command invocation handed to `InteractionAgent._invoke_command`:
the stderr context bytes, the raw command payload bytes (not yet parsed
by `ast.literal_eval`), and the passed fds. -/
structure Invoc where
  stderr : List Nat
  blob : List Nat
  fds : List Nat
  deriving DecidableEq, Repr

/-- Outcome of `InteractionAgent._got_data` (interaction_agent.py lines
297-320) on one received message. -/
inductive GotDataResult where
  /-- `data == b''`: zero-length read; `_result(buffer)` is recorded with
  the decoded buffer (returned here as bytes). -/
  | eofResult (stderr : List Nat)
  /-- Normal processing: the `_invoke_command` calls made, in order, and
  the new buffer. -/
  | ok (invocations : List Invoc) (buffer : List Nat)
  /-- The `assert self._buffer.endswith(b'\0')` on the local-command path
  failed: an `AssertionError` escapes `_got_data` and no command is
  invoked. -/
  | assertViolation
  deriving DecidableEq, Repr

/-- `InteractionAgent._got_data`, translated from interaction_agent.py
lines 297-320.  `buffer` is `self._buffer` before the call, `data` and
`fds` are the received message, and `fdPayload` is the contents that a
read of the first passed fd would return (an input to the model, since
the model does not perform I/O). -/
def got_data (buffer data : List Nat) (fds : List Nat) (fdPayload : List Nat) :
    GotDataResult :=
  if data = [] then .eofResult buffer
  else
    let tail := (splitFrames (buffer ++ data)).2
    let remote : List Invoc := (splitFrames (buffer ++ data)).1.map (fun pr => ⟨pr.1, pr.2, []⟩)
    match fds with
    | [] => .ok remote tail
    | _f0 :: restFds =>
      if tail.getLast? = some 0 then
        .ok (remote ++ [⟨tail.dropLast, fdPayload, restFds⟩]) []
      else .assertViolation

/-- Repeated `_got_data` on a sequence of reads that carry no fds (the
pure stderr/remote-command path), starting from the given buffer:
returns all `_invoke_command` calls `(stderr chunk, payload)` in order,
and the final buffer. -/
def processReads (buffer : List Nat) :
    List (List Nat) → List (List Nat × List Nat) × List Nat
  | [] => ([], buffer)
  | d :: ds =>
    ((splitFrames (buffer ++ d)).1 ++ (processReads (splitFrames (buffer ++ d)).2 ds).1,
      (processReads (splitFrames (buffer ++ d)).2 ds).2)

/-- The on-wire bytes of one framed command record with payload `p`:
`\0ferny\0 ++ p ++ \0\0\n` (the `COMMAND_TEMPLATE` of
interaction_agent.py line 35). -/
def frameBytes (p : List Nat) : List Nat :=
  magic ++ p ++ [0, 0, 10]

/-- A stream consisting of stderr noise chunks interleaved with framed
command records: `pairs` lists `(noise, payload)` in order, `tail` is
trailing noise. -/
def flattenPairs : List (List Nat × List Nat) → List Nat → List Nat
  | [], tail => tail
  | (n, p) :: rest, tail => n ++ frameBytes p ++ flattenPairs rest tail

/-- A noise chunk is unambiguous when no occurrence of the frame magic
begins inside it — also accounting for occurrences straddling into a
following frame, whose first seven bytes are the magic itself; since the
magic's only non-trivial border is its single NUL, such a straddling
occurrence exists exactly when the magic occurs in the chunk followed by
the magic's first six bytes. -/
def safeChunk (n : List Nat) : Bool :=
  ! hasSeq magic (n ++ magic.take 6)

/-- The single datagram sent by `interaction_client.interact`
(interaction_client.py lines 10-18): data bytes
`\0ferny\0 ++ repr((argv, env))`, where `reprData` stands for the UTF-8
bytes of `repr((argv, env))`.  The ancillary data carries the two fds
`[theirs, stdout_fd]`, which the model passes separately. -/
def interactPacket (reprData : List Nat) : List Nat :=
  magic ++ reprData

/-! ## Exceptions

One inductive covers every exception value the modelled code can record
or deliver: the ssh stderr classification results, `SubprocessError`
(transport.py lines 32-39), `BrokenPipeError`, `InteractionError`
(interaction_agent.py line 51), OS errors (by errno), and arbitrary
user/handler exceptions (identified by an opaque tag). -/

inductive Exc where
  | sshAuthenticationError (destination : String) (methods : List String) (stderr : String)
  | sshChangedHostKeyError (stderr : String)
  | sshUnknownHostKeyError (stderr : String)
  | sshHostKeyError (stderr : String)
  | sshInvalidHostnameError (stderr : String)
  | gaiError (errnum : Int) (stderr : String)
  | osError (errnum : Int) (stderr : String)
  | sshError (stderr : String)
  | subprocessError (returncode : Int) (stderr : String)
  | brokenPipeError
  | interactionError (message : String)
  | userException (tag : String)
  deriving DecidableEq, Repr

/-! ## ssh stderr error classification

The module `ferny/ssh_errors.py` (imported by transport.py line 25 and
`__init__.py`) is not part of the provided sources; only an earlier
revision (`ferny/errors.py`, without the host-key sub-variants) is.  The
classifier below is therefore modelled from the spec, §4.4 "Error
classification". -/

/-- ASCII whitespace, as stripped by Python `str.strip()` (restricted to
the ASCII range; none of the modelled strings contain other whitespace). -/
def isPySpace (c : Char) : Bool :=
  c = ' ' || c = '\t' || c = '\n' || c = '\r' || c = Char.ofNat 11 || c = Char.ofNat 12

/-- Python `str.strip()` on a character list. -/
def stripChars (l : List Char) : List Char :=
  ((l.dropWhile isPySpace).reverse.dropWhile isPySpace).reverse

/-- Python `str.strip()`. -/
def pyStrip (s : String) : String :=
  String.mk (stripChars s.toList)

/-- Split a character list into lines at LF; models the line structure
that `re.M` anchors (`^`/`$`) see.  `"a\nb"` gives `["a", "b"]`,
`"a\n"` gives `["a", ""]`. -/
def linesOf : List Char → List (List Char)
  | [] => [[]]
  | c :: t =>
    let ls := linesOf t
    if c = '\n' then [] :: ls
    else match ls with
      | h :: r => (c :: h) :: r
      | [] => [[c]]

/-- Modelled from the spec: one anchored attempt of
`AuthenticationError.PATTERN = ^(?P<dest>[^:]+): Permission denied
\((?P<methods>[^()]+)\)\.$` at the start of `l` (a line-start position of
the stderr).  `[^:]+` is greedy over a class that excludes the colon, so
the destination necessarily runs to the first colon; the methods group
runs to the first parenthesis; the `$` requires LF or end of string
after the final dot. -/
def authFrom (l : List Char) : Option (List Char × List Char) :=
  let dest := l.takeWhile (· ≠ ':')
  if dest.isEmpty then none
  else
    let r := l.drop dest.length
    if leadsWith (": Permission denied (".toList) r then
      let r2 := r.drop 21
      let methods := r2.takeWhile (fun c => c ≠ '(' && c ≠ ')')
      if methods.isEmpty then none
      else
        let r3 := r2.drop methods.length
        if leadsWith [')', '.'] r3 && ((r3.drop 2).isEmpty || (r3.drop 2).head? = some '\n')
        then some (dest, methods)
        else none
    else none

/-- Split a character list at its first LF (like `takeToNl` for bytes). -/
def takeToNlChar : List Char → Option (List Char × List Char)
  | [] => none
  | c :: t =>
    if c = '\n' then some ([], t)
    else match takeToNlChar t with
      | some (a, b) => some (c :: a, b)
      | none => none

/-- Modelled from the spec: `re.search` of the authentication pattern
with `re.M`, trying each line-start position from the left (fuelled;
any fuel of at least the number of lines is enough). -/
def authSearchF : Nat → List Char → Option (List Char × List Char)
  | 0, _ => none
  | fuel + 1, l =>
    match authFrom l with
    | some x => some x
    | none =>
      match takeToNlChar l with
      | some (_, t) => authSearchF fuel t
      | none => none

/-- Modelled from the spec: search the stderr for the authentication
failure pattern, returning the `dest` and `methods` captures of the
leftmost match. -/
def authSearch (l : List Char) : Option (List Char × List Char) :=
  authSearchF (l.length + 1) l

/-- Modelled from the spec: `HostKeyError.PATTERN =
^Host key verification failed\.$` with `re.M` — some line of the stderr
is exactly this text. -/
def hostKeyLineHit (l : List Char) : Bool :=
  (linesOf l).any (· = "Host key verification failed.".toList)

/-- Modelled from the spec: the `Changed*` sub-variant marker
"WARNING: REMOTE HOST IDENTIFICATION HAS CHANGED" appears in the stderr. -/
def changedMarker (l : List Char) : Bool :=
  hasSeq ("WARNING: REMOTE HOST IDENTIFICATION HAS CHANGED".toList) l

/-- Modelled from the spec: the `Unknown*` sub-variant marker
"No \<ALG\> host key is known for" appears in the stderr (the algorithm
placeholder is arbitrary, so the check is for the surrounding literals). -/
def unknownMarker (l : List Char) : Bool :=
  hasSeq ("No ".toList) l && hasSeq (" host key is known for".toList) l

/-- Python `str.rpartition(':')` restricted to what the classifier uses:
the characters after the last colon, when a colon exists and is not the
final character. -/
def afterLastColon (s : List Char) : Option (List Char) :=
  let r := s.reverse.takeWhile (· ≠ ':')
  if r.length = s.length then none
  else if r.isEmpty then none
  else some r.reverse

/-- Python `'a,b'.split(',')` on the methods capture. -/
def splitCommas (l : List Char) : List String :=
  (l.splitOn ',').map String.mk

/-- Modelled from the spec (§4.4, error classification; the module
`ssh_errors.py` carrying this function is absent from the sources, which
retain only its callers and tests): classify ssh stderr into a
structured exception.  Checks, in order: authentication failure;
host-key verification failure with the changed / unknown sub-variant
markers; invalid hostname (`Bad hostname`); then the trailer after the
last colon against the `gai_strerror` and `strerror` tables.  The two
tables are system lookup tables that the spec leaves to the
environment, so they are parameters. -/
def get_exception_for_ssh_stderr (gaiTable strerrorTable : String → Option Int)
    (stderr : String) : Exc :=
  let s := stderr.toList
  match authSearch s with
  | some (dest, methods) =>
    .sshAuthenticationError (String.mk dest) (splitCommas methods) stderr
  | none =>
    if hostKeyLineHit s then
      if changedMarker s then .sshChangedHostKeyError stderr
      else if unknownMarker s then .sshUnknownHostKeyError stderr
      else .sshHostKeyError stderr
    else if hasSeq ("Bad hostname".toList) s then .sshInvalidHostnameError stderr
    else
      match afterLastColon s with
      | some after =>
        let potential := String.mk (stripChars after)
        match gaiTable potential with
        | some n => .gaiError n stderr
        | none =>
          match strerrorTable potential with
          | some n => .osError n stderr
          | none => .sshError stderr
      | none => .sshError stderr

/-! ## ssh prompt classification (src/ferny/ssh_askpass.py)

`categorize_ssh_prompt` (ssh_askpass.py lines 147-173) splits the prompt
string at the last LF before the final character and full-matches the
last line against the patterns of the six prompt classes in a fixed
order.  Each pattern is a concrete regex; each is translated here as a
deterministic matcher.  Determinism is justified pattern by pattern: in
every pattern, each greedy character class excludes the character that
the following literal begins with (or the match end is forced by the
full-match anchoring), so greedy matching coincides with maximal munch
and no backtracking can produce a different decomposition. -/

/-- ASCII `\w` (the prompts handled are ASCII). -/
def wordChar (c : Char) : Bool :=
  ('a' ≤ c && c ≤ 'z') || ('A' ≤ c && c ≤ 'Z') || ('0' ≤ c && c ≤ '9') || c = '_'

/-- The class `[-\w]` of the `%{algorithm}` helper (ssh_askpass.py line 71). -/
def wordDash (c : Char) : Bool :=
  wordChar c || c = '-'

/-- The class `[0-9A-Za-z+/]` of the `%{fingerprint}` helper (line 73). -/
def base64Char (c : Char) : Bool :=
  ('a' ≤ c && c ≤ 'z') || ('A' ≤ c && c ≤ 'Z') || ('0' ≤ c && c ≤ '9') || c = '+' || c = '/'

/-- The class `[^ @']` of the `%{username}` / `%{hostname}` helpers
(lines 74, 76). -/
def nameClass (c : Char) : Bool :=
  c ≠ ' ' && c ≠ '@' && c ≠ Char.ofNat 39

/-- The apostrophe character (written via its code point throughout). -/
def squote : Char := Char.ofNat 39

/-- Full match of `mid` against `(?P<x>.+)` followed by the literal
`suf`, anchored at both ends: `mid = x ++ suf` with `x` non-empty and
LF-free (`.` does not match LF).  The final position of `suf` is forced
by the full-match anchoring. -/
def wrapCapture (suf mid : List Char) : Option (List Char) :=
  let k := mid.length - suf.length
  let f := mid.take k
  if 1 ≤ k && mid.drop k = suf && f.all (· ≠ '\n') then some f else none

/-- Full match against `SshPasswordPrompt._pattern =
"%{username}@%{hostname}'s password: "` (ssh_askpass.py line 81):
returns the `username` and `hostname` captures.  Both classes exclude
`@`, space and the apostrophe, so each group runs to the following
literal character. -/
def matchPassword (s : List Char) : Option (List Char × List Char) :=
  let u := s.takeWhile nameClass
  if u.isEmpty then none
  else
    match s.drop u.length with
    | '@' :: r2 =>
      let h := r2.takeWhile nameClass
      if h.isEmpty then none
      else if r2.drop h.length = squote :: "s password: ".toList then some (u, h)
      else none
    | _ => none

/-- Full match against `SshPassphrasePrompt._pattern =
"Enter passphrase for key '%{filename}': "` (line 90): the `filename`
capture. -/
def matchPassphrase (s : List Char) : Option (List Char) :=
  let pre := "Enter passphrase for key ".toList ++ [squote]
  if leadsWith pre s then wrapCapture (squote :: ": ".toList) (s.drop pre.length)
  else none

/-- Full match against `SshPKCS11PINPrompt._pattern =
"Enter PIN for '%{pkcs11_id}': "` (line 117): the `pkcs11_id` capture. -/
def matchPkcs11 (s : List Char) : Option (List Char) :=
  let pre := "Enter PIN for ".toList ++ [squote]
  if leadsWith pre s then wrapCapture (squote :: ": ".toList) (s.drop pre.length)
  else none

/-- The `\b%{algorithm}\b` token at a position whose preceding character
is a non-word character (a space, in every pattern that uses it): the
run of `[-\w]` characters must be non-empty and, because of the two word
boundaries, start and end with a word character.  (Backtracking to a
shorter run cannot help: the following character would then be in
`[-\w]`, and every following literal in the patterns starts with a
space, which is not.)  Returns the run and the remainder. -/
def algToken (s : List Char) : Option (List Char × List Char) :=
  let alg := s.takeWhile wordDash
  match alg.head?, alg.getLast? with
  | some c0, some c1 =>
    if wordChar c0 && wordChar c1 then some (alg, s.drop alg.length) else none
  | _, _ => none

/-- Full match against `SshFIDOPINPrompt._pattern =
"Enter PIN for %{algorithm} key %{filename}: "` (line 98): the
`algorithm` and `filename` captures. -/
def matchFidoPin (s : List Char) : Option (List Char × List Char) :=
  if leadsWith ("Enter PIN for ".toList) s then
    match algToken (s.drop 14) with
    | some (alg, r2) =>
      if leadsWith (" key ".toList) r2 then
        match wrapCapture (": ".toList) (r2.drop 5) with
        | some fn => some (alg, fn)
        | none => none
      else none
    | none => none
  else none

/-- Full match against `SshFIDOUserPresencePrompt._pattern =
"Confirm user presence for key %{algorithm} %{fingerprint}"` (line 107):
the `algorithm` and `fingerprint` captures; the fingerprint is
`SHA256:` followed by exactly 43 base64 characters, and the full match
ends there. -/
def matchPresence (s : List Char) : Option (List Char × List Char) :=
  if leadsWith ("Confirm user presence for key ".toList) s then
    match algToken (s.drop 30) with
    | some (alg, r2) =>
      match r2 with
      | ' ' :: r3 =>
        if leadsWith ("SHA256:".toList) r3 then
          let fp := r3.drop 7
          if fp.length = 43 && fp.all base64Char then some (alg, "SHA256:".toList ++ fp)
          else none
        else none
      | _ => none
    | none => none
  else none

/-- Full match against `SshHostKeyPrompt._pattern =
"Are you sure you want to continue connecting \(yes/no(/\[fingerprint\])?\)? "`
(line 125): the optional group makes exactly two literal strings
acceptable. -/
def matchHostKey (s : List Char) : Bool :=
  s = "Are you sure you want to continue connecting (yes/no)? ".toList ||
  s = "Are you sure you want to continue connecting (yes/no/[fingerprint])? ".toList

/-- The classified prompt kind: one constructor per prompt class of
ssh_askpass.py, carrying the named captures of its primary pattern, plus
the generic base-class fallback.  (`SshHostKeyPrompt`'s
`_extra_patterns` populate auxiliary attributes from `messages`; no
claim refers to them and they are not modelled.) -/
inductive PromptKind where
  | fidoPin (algorithm filename : List Char)
  | fidoPresence (algorithm fingerprint : List Char)
  | hostKey
  | pkcs11Pin (pkcs11_id : List Char)
  | passphrase (filename : List Char)
  | password (username hostname : List Char)
  | generic
  deriving DecidableEq, Repr

/-- An `AskpassPrompt` (ssh_askpass.py lines 10-27): the classified
kind together with the three attributes every prompt carries. -/
structure Categorized where
  kind : PromptKind
  prompt : List Char
  messages : List Char
  stderr : List Char
  deriving DecidableEq, Repr

/-- Index of the last LF in `l`, if any. -/
def lastNlIdx : List Char → Option Nat
  | [] => none
  | c :: rest =>
    match lastNlIdx rest with
    | some i => some (i + 1)
    | none => if c = '\n' then some 0 else none

/-- The split of `categorize_ssh_prompt` (ssh_askpass.py lines 157-165):
`string.rfind('\n', 0, -1)` finds the last LF strictly before the final
character; the prompt is everything after it, the messages everything up
to and including it.  Returns `(extras, last_line)`. -/
def splitPrompt (s : List Char) : List Char × List Char :=
  match lastNlIdx (s.take (s.length - 1)) with
  | some i => (s.take (i + 1), s.drop (i + 1))
  | none => ([], s)

/-- `categorize_ssh_prompt` (ssh_askpass.py lines 147-173): split off the
last line and try the six classes in the order of the `classes` list
(lines 148-155); the first full match wins; otherwise the generic
`AskpassPrompt` is returned. -/
def categorize_ssh_prompt (string stderr : List Char) : Categorized :=
  let extras := (splitPrompt string).1
  let last_line := (splitPrompt string).2
  match matchFidoPin last_line with
  | some (alg, fn) => ⟨.fidoPin alg fn, last_line, extras, stderr⟩
  | none =>
    match matchPresence last_line with
    | some (alg, fp) => ⟨.fidoPresence alg fp, last_line, extras, stderr⟩
    | none =>
      if matchHostKey last_line then ⟨.hostKey, last_line, extras, stderr⟩
      else
        match matchPkcs11 last_line with
        | some pid => ⟨.pkcs11Pin pid, last_line, extras, stderr⟩
        | none =>
          match matchPassphrase last_line with
          | some fn => ⟨.passphrase fn, last_line, extras, stderr⟩
          | none =>
            match matchPassword last_line with
            | some (u, h) => ⟨.password u h, last_line, extras, stderr⟩
            | none => ⟨.generic, last_line, extras, stderr⟩

/-! ## FernyTransport (src/ferny/transport.py)

The transport is an event-driven object on a single-threaded event loop.
Its state is the record fields of `FernyTransport`; its events are the
callbacks the loop can deliver.  `step` translates each callback body;
`run` folds an arbitrary event sequence, collecting the calls made on
the user protocol.  The claims quantify over all event interleavings.

The ssh stderr classifier is imported by transport.py from
`ferny.ssh_errors` (absent from the sources), so the machine is
parameterised by the classification function `classify`. -/

/-- The fields of `FernyTransport` that the disconnect arbitration reads
or writes (transport.py lines 42-62).  `subprocessTransportSet` models
`_subprocess_transport is not None`; `stderrOutput` is `_stderr_output`
(set exactly when the agent's completion future has resolved). -/
structure TState where
  isSsh : Bool
  execTaskDone : Bool
  subprocessTransportSet : Bool
  protocolDisconnected : Bool
  transportDisconnected : Bool
  closed : Bool
  exception : Option Exc
  stderrOutput : Option String
  returncode : Option Int
  deriving DecidableEq, Repr

/-- The semi-initialized state returned by `FernyTransport.spawn`
(transport.py lines 117-135): the exec task has just been created and no
callback has run yet. -/
def spawnState (isSsh : Bool) : TState :=
  ⟨isSsh, false, false, false, false, false, none, none, none⟩

/-- Calls the transport makes on the user protocol. -/
inductive ProtoCall where
  | connectionMade
  | connectionLost (exc : Option Exc)
  | eofReceived
  | dataReceived (data : String)
  /-- The `assert self._returncode is not None` in `_consider_disconnect`
  (transport.py line 208) failed. -/
  | assertFailed
  deriving DecidableEq, Repr

/-- The callbacks the event loop can deliver to the transport.  Each
constructor corresponds to one method of `FernyTransport`; values the
real callback receives from the loop or returns from the protocol are
carried as event data. -/
inductive TEvent where
  /-- The exec task succeeded: asyncio first calls `connection_made`
  (transport.py lines 224-241), then the `exec_completed` callback
  (lines 137-158) runs its success path. -/
  | execOk
  /-- The exec task was cancelled: `exec_completed` does nothing
  (lines 144-145). -/
  | execCancelled
  /-- The exec task failed with an OSError: `exec_completed` calls
  `close(exc)` (lines 146-149). -/
  | execOSError (exc : Exc)
  /-- `connection_lost` from the subprocess transport (lines 243-248). -/
  | subConnectionLost (exc : Option Exc)
  /-- `pipe_data_received` for stdout (lines 251-254). -/
  | pipeData (data : String)
  /-- `pipe_connection_lost` (lines 256-270); `eofAccepts` is the value
  `self._protocol.eof_received()` returns if called. -/
  | pipeLost (fd : Nat) (exc : Option Exc) (eofAccepts : Bool)
  /-- `process_exited` (lines 272-277); `rc` is
  `get_returncode()` of the subprocess transport. -/
  | processExited (rc : Int)
  /-- `_interaction_completed` (lines 211-221): the agent's completion
  future resolved with a stderr string or an exception. -/
  | interactionCompleted (res : String ⊕ Exc)
  /-- `close(exc)` called by the user (lines 288-302). -/
  | userClose (exc : Option Exc)
  deriving DecidableEq, Repr

/-- `FernyTransport._consider_disconnect` (transport.py lines 167-209):
returns the updated state and the protocol calls made. -/
def consider_disconnect (classify : String → Exc) (s : TState) :
    TState × List ProtoCall :=
  if ¬ s.execTaskDone then (s, [])
  else if s.subprocessTransportSet ∧ ¬ s.transportDisconnected then (s, [])
  else
    match s.stderrOutput with
    | none => (s, [])
    | some stderr =>
      if s.protocolDisconnected then (s, [])
      else
        let s' := { s with protocolDisconnected := true }
        match s.exception with
        | some exc => (s', [.connectionLost (some exc)])
        | none =>
          if s.returncode = some 0 ∨ s.closed then (s', [.connectionLost none])
          else if s.isSsh ∧ s.returncode = some 255 then
            (s', [.connectionLost (some (classify stderr))])
          else
            match s.returncode with
            | some rc => (s', [.connectionLost (some (.subprocessError rc stderr))])
            | none => (s', [.assertFailed])

/-- `FernyTransport.close` (transport.py lines 288-302): sets `_closed`,
records the exception if none is recorded yet, cancels the exec task and
closes the subprocess transport (their completions arrive as later
events), and forces agent completion (whose resolution arrives as a
later `interactionCompleted` event). -/
def closeTransport (s : TState) (exc : Option Exc) : TState :=
  { s with
    closed := true
    exception := match s.exception with
      | some e => some e
      | none => exc }

/-- One event-loop callback of `FernyTransport`, translated case by case
from transport.py. -/
def stepT (classify : String → Exc) (s : TState) : TEvent → TState × List ProtoCall
  | .execOk =>
    -- connection_made (lines 224-241) followed by exec_completed success
    -- (lines 150-158; agent start has no transport-visible effect)
    ({ s with execTaskDone := true, subprocessTransportSet := true },
      [.connectionMade])
  | .execCancelled =>
    ({ s with execTaskDone := true }, [])
  | .execOSError exc =>
    (closeTransport { s with execTaskDone := true } (some exc), [])
  | .subConnectionLost exc =>
    let s1 := { s with
      exception := match s.exception with
        | some e => some e
        | none => exc
      transportDisconnected := true }
    consider_disconnect classify s1
  | .pipeData data =>
    (s, [.dataReceived data])
  | .pipeLost fd exc eofAccepts =>
    -- BrokenPipeError is treated as a clean close (lines 261-262)
    let exc' := if exc = some .brokenPipeError then none else exc
    match exc' with
    | some e => (closeTransport s (some e), [])
    | none =>
      if fd = 1 ∧ ¬ s.closed then
        if eofAccepts then (s, [.eofReceived])
        else (closeTransport s none, [.eofReceived])
      else (s, [])
  | .processExited rc =>
    -- records the return code and forces agent completion (lines 272-277)
    ({ s with returncode := some rc }, [])
  | .interactionCompleted res =>
    match res with
    | .inl stderr =>
      consider_disconnect classify { s with stderrOutput := some stderr }
    | .inr exc =>
      consider_disconnect classify
        (closeTransport { s with stderrOutput := some "" } (some exc))
  | .userClose exc =>
    (closeTransport s exc, [])

/-- Fold a sequence of events from a state, collecting all protocol
calls in order. -/
def runT (classify : String → Exc) : TState → List TEvent → TState × List ProtoCall
  | s, [] => (s, [])
  | s, ev :: evs =>
    ((runT classify (stepT classify s ev).1 evs).1,
      (stepT classify s ev).2 ++ (runT classify (stepT classify s ev).1 evs).2)

/-- Is a protocol call a `connection_lost` delivery? -/
def isConnLost : ProtoCall → Bool
  | .connectionLost _ => true
  | _ => false

/-- The `connection_lost` argument as the claim's priority rule states
it (spec §4.5 "Disconnect arbiter"): a recorded exception is passed
as-is; otherwise `close()` or return code 0 is a clean `None`;
otherwise an ssh exit (code 255) classifies the captured stderr;
otherwise `SubprocessError` carries the return code and stderr.  This is
the claim-side statement, to be compared with the behaviour of
`_consider_disconnect` as translated in `consider_disconnect`. -/
def claimedDisconnectArg (classify : String → Exc) (s : TState) : Option Exc :=
  match s.exception with
  | some e => some e
  | none =>
    if s.closed ∨ s.returncode = some 0 then none
    else if s.isSsh ∧ s.returncode = some 255 then
      some (classify (s.stderrOutput.getD ""))
    else some (.subprocessError (s.returncode.getD 0) (s.stderrOutput.getD ""))

/-! ## InteractionAgent result / completion life-cycle
(src/ferny/interaction_agent.py lines 197-405)

The agent's terminal behaviour — `_result`, `_consider_completion`, the
task bottom-half, `force_completion` and `communicate` — is a second
event-driven machine.  Its events are the loop callbacks at the
granularity of one `_invoke_command` call (the byte-level framing that
produces those calls is the `got_data` model above; the literal parse of
the payload by `ast.literal_eval` is standard-library code, so an event
carries its outcome).  The claims quantify over all event
interleavings. -/

/-- A result recorded by `InteractionAgent._result`: the decoded stderr
string or an exception (interaction_agent.py line 209,
`_pending_result: 'None | str | Exception'`). -/
inductive ARes where
  | str (s : String)
  | exc (e : Exc)
  deriving DecidableEq, Repr

/-- The parse/dispatch outcome of one command payload inside
`_invoke_command` (interaction_agent.py lines 249-267): the sentinel
`('ferny.end', ())`; a command with a registered handler; a command
without one; or a payload `ast.literal_eval` rejects. -/
inductive CmdMsg where
  | endCmd
  | known
  | unknown
  | malformed
  deriving DecidableEq, Repr

/-- How a handler task finished (the cases of `bottom_half`,
interaction_agent.py lines 281-289). -/
inductive TaskOutcome where
  | ok
  | cancelled
  | raised (e : Exc)
  deriving DecidableEq, Repr

/-- The agent state the life-cycle claims are about.  `tasks` holds the
ids of in-flight handler tasks (`self._tasks`); `cancelRequested`
records every task id on which `task.cancel()` has been called;
`completion` is the value of `_completion_future` once set;
`readerActive` reflects whether the read callback is registered;
`socketOpen` whether `self._ours` is still open (`fileno() != -1`). -/
structure AgentCore where
  buffer : String
  endSeen : Bool
  pending : Option ARes
  tasks : List Nat
  cancelRequested : List Nat
  completion : Option ARes
  readerActive : Bool
  socketOpen : Bool
  nextId : Nat
  deriving DecidableEq, Repr

/-- The agent right after `__init__` and `start()`
(interaction_agent.py lines 335-354, 359-368): reader registered, no
buffer, no result. -/
def initAgent : AgentCore :=
  ⟨"", false, none, [], [], none, true, true, 0⟩

/-- `InteractionAgent._consider_completion` (interaction_agent.py lines
212-227): resolve the completion future with the pending result once it
is set and no task is in flight; never overwrite a resolved future. -/
def consider_completion (s : AgentCore) : AgentCore :=
  if s.pending = none ∨ s.tasks ≠ [] then s
  else if s.completion.isSome then s
  else { s with completion := s.pending }

/-- `InteractionAgent._result` (interaction_agent.py lines 229-247):
record the result only if none is recorded yet; unregister the reader;
cancel every in-flight task; close both sockets; consider completion. -/
def resultA (s : AgentCore) (r : ARes) : AgentCore :=
  let s1 := if s.pending = none then { s with pending := some r } else s
  consider_completion
    { s1 with
      readerActive := false
      cancelRequested := s1.cancelRequested ++ s1.tasks
      socketOpen := false }

/-- The dispatch part of `InteractionAgent._invoke_command`
(interaction_agent.py lines 249-295): a malformed payload is logged and
dropped; `ferny.end` sets `_end` and records the decoded buffer as a
string result; an unhandled command is logged and dropped; a handled
command becomes a new in-flight task. -/
def invoke_command (s : AgentCore) : CmdMsg → AgentCore
  | .malformed => s
  | .unknown => s
  | .endCmd =>
    let s' := { s with endSeen := true }
    resultA s' (.str s'.buffer)
  | .known => { s with tasks := s.tasks ++ [s.nextId], nextId := s.nextId + 1 }

/-- `bottom_half` (interaction_agent.py lines 275-293), the done-callback
of a handler task: remove the task from the in-flight set; a
non-cancellation exception is recorded via `_result`; consider
completion.  Guarded on membership since asyncio fires the callback
exactly once per task. -/
def bottom_half (s : AgentCore) (id : Nat) (outcome : TaskOutcome) : AgentCore :=
  if id ∈ s.tasks then
    let s1 := { s with tasks := s.tasks.erase id }
    let s2 := match outcome with
      | .ok => s1
      | .cancelled => s1
      | .raised e => resultA s1 (.exc e)
    consider_completion s2
  else s

/-- The drain phase of `force_completion` as seen from outside: either
the non-blockingly drained residual bytes, or an OSError. -/
inductive ForceOutcome where
  | drained (extra : String)
  | drainError (errnum : Int)
  deriving DecidableEq, Repr

/-- `InteractionAgent.force_completion` (interaction_agent.py lines
370-388): when the socket is still open, drain residual stderr into the
buffer (or hit an OSError) and record the corresponding result; when it
is already closed, record the current buffer as a string result. -/
def force_completion (s : AgentCore) : ForceOutcome → AgentCore
  | .drained extra =>
    if s.socketOpen then
      resultA { s with buffer := s.buffer ++ extra } (.str (s.buffer ++ extra))
    else resultA s (.str s.buffer)
  | .drainError n =>
    if s.socketOpen then resultA s (.exc (.osError n ""))
    else resultA s (.str s.buffer)

/-- The loop callbacks of the agent.  Read events are only delivered
while the read callback is registered; task done-callbacks and
`force_completion` can happen at any time. -/
inductive AEvent where
  /-- `recv_fds` raised an OSError (`_read_ready`, lines 327-328). -/
  | readErr (errnum : Int)
  /-- zero-length read (`_got_data`, lines 300-302). -/
  | readEof
  /-- stderr bytes without any complete frame: appended to the buffer. -/
  | readNoise (data : String)
  /-- one `_invoke_command` call produced by `_got_data`. -/
  | readCmd (m : CmdMsg)
  /-- a handler task finished. -/
  | taskDone (id : Nat) (outcome : TaskOutcome)
  /-- `force_completion()` was called (by the transport or
  `communicate`). -/
  | force (drain : ForceOutcome)
  deriving DecidableEq, Repr

/-- One agent event. -/
def stepA (s : AgentCore) : AEvent → AgentCore
  | .readErr n => if s.readerActive then resultA s (.exc (.osError n "")) else s
  | .readEof => if s.readerActive then resultA s (.str s.buffer) else s
  | .readNoise d => if s.readerActive then { s with buffer := s.buffer ++ d } else s
  | .readCmd m => if s.readerActive then invoke_command s m else s
  | .taskDone id outcome => bottom_half s id outcome
  | .force drain => force_completion s drain

/-- Fold a sequence of agent events. -/
def runA : AgentCore → List AEvent → AgentCore
  | s, [] => s
  | s, ev :: evs => runA (stepA s ev) evs

/-- The arguments of the `_result` calls one event makes (the
"recorded terminal results" of this step), for observation in the
write-once claim. -/
def recordedA (s : AgentCore) : AEvent → List ARes
  | .readErr n => if s.readerActive then [.exc (.osError n "")] else []
  | .readEof => if s.readerActive then [.str s.buffer] else []
  | .readNoise _ => []
  | .readCmd .endCmd => if s.readerActive then [.str s.buffer] else []
  | .readCmd _ => []
  | .taskDone id outcome =>
    if id ∈ s.tasks then
      match outcome with
      | .raised e => [.exc e]
      | _ => []
    else []
  | .force drain =>
    if s.socketOpen then
      match drain with
      | .drained extra => [.str (s.buffer ++ extra)]
      | .drainError n => [.exc (.osError n "")]
    else [.str s.buffer]

/-- All `_result` arguments along a trace, in order. -/
def traceRecords : AgentCore → List AEvent → List ARes
  | _, [] => []
  | s, ev :: evs => recordedA s ev ++ traceRecords (stepA s ev) evs

/-- `InteractionAgent.communicate` (interaction_agent.py lines 390-405)
after the completion future resolves with `v` and with `_end = endSeen`:
an exception result propagates out of `await asyncio.shield(...)`;
a string result returns normally when `_end` is set and otherwise
raises `InteractionError(stderr.strip())`.  `none` models a normal
return; `some e` models raising `e`. -/
def communicateOutcome (v : ARes) (endSeen : Bool) : Option Exc :=
  match v with
  | .exc e => some e
  | .str t => if endSeen then none else some (.interactionError (pyStrip t))

/-- Does `communicate` raise an `InteractionError`? -/
def raisesInteractionError : Option Exc → Bool
  | some (.interactionError _) => true
  | _ => false

/-- Is an exception the changed-host-key sub-variant? -/
def isChangedHostKey : Exc → Bool
  | .sshChangedHostKeyError _ => true
  | _ => false

/-- Is an agent result a string (stderr) result? -/
def ARes.isStr : ARes → Bool
  | .str _ => true
  | .exc _ => false

/-- The inductive invariant of the agent life-cycle machine: while the
reader is registered no result has been recorded; once the end sentinel
has been seen the recorded result is a string; the resolved completion
value is the recorded pending result; whenever a result has been
recorded, every in-flight task has had `cancel()` called on it; and the
completion future resolves only with no task in flight. -/
def AgentInv (s : AgentCore) : Prop :=
  (s.readerActive = true → s.pending = none)
  ∧ (s.endSeen = true → ∃ t, s.pending = some (.str t))
  ∧ (∀ v, s.completion = some v → s.pending = some v)
  ∧ (s.pending ≠ none → s.tasks ⊆ s.cancelRequested)
  ∧ (s.completion ≠ none → s.tasks = [])

/-! ## Lemmas: basic scanning helpers -/

theorem leadsWith_iff {α : Type} [DecidableEq α] (p l : List α) :
    leadsWith p l = true ↔ ∃ t, l = p ++ t := by
  induction p generalizing l with
  | nil => simp [leadsWith]
  | cons a ps ih =>
    cases l with
    | nil =>
      simp [leadsWith]
    | cons b ls =>
      simp only [leadsWith, Bool.and_eq_true, decide_eq_true_eq, ih]
      constructor
      · rintro ⟨rfl, t, rfl⟩
        exact ⟨t, rfl⟩
      · rintro ⟨t, h⟩
        cases h
        exact ⟨rfl, t, rfl⟩

theorem leadsWith_self_append {α : Type} [DecidableEq α] (p t : List α) :
    leadsWith p (p ++ t) = true :=
  (leadsWith_iff p (p ++ t)).2 ⟨t, rfl⟩

theorem leadsWith_take {α : Type} [DecidableEq α] {p s : List α} (c : List α)
    (h : p.length ≤ s.length) : leadsWith p (s ++ c) = leadsWith p s := by
  induction p generalizing s with
  | nil => simp [leadsWith]
  | cons a ps ih =>
    cases s with
    | nil => simp at h
    | cons b ls =>
      simp only [List.cons_append, leadsWith, List.append_eq]
      rw [ih (by simpa using Nat.le_of_succ_le_succ h)]

theorem hasSeq_iff {α : Type} [DecidableEq α] (pat l : List α) :
    hasSeq pat l = true ↔ ∃ u v, l = u ++ pat ++ v := by
  induction l with
  | nil =>
    cases pat with
    | nil => simp [hasSeq, leadsWith]
    | cons x xs =>
      simp only [hasSeq, leadsWith]
      constructor
      · intro h; exact absurd h (by simp)
      · rintro ⟨u, v, h⟩
        exact absurd h.symm (by simp)
  | cons b ls ih =>
    simp only [hasSeq, Bool.or_eq_true, leadsWith_iff, ih]
    constructor
    · rintro (⟨t, h⟩ | ⟨u, v, h⟩)
      · exact ⟨[], t, by simpa using h⟩
      · exact ⟨b :: u, v, by simp [h]⟩
    · rintro ⟨u, v, h⟩
      rcases u with _ | ⟨x, u⟩
      · exact .inl ⟨v, by simpa using h⟩
      · simp only [List.cons_append] at h
        cases h
        · exact .inr ⟨u, v, by simp⟩

theorem takeToNl_sound {t a b : List Nat} (h : takeToNl t = some (a, b)) :
    t = a ++ 10 :: b ∧ 10 ∉ a := by
  induction t generalizing a b with
  | nil => simp [takeToNl] at h
  | cons c rest ih =>
    by_cases hc : c = 10
    · subst hc
      simp [takeToNl] at h
      simp [h.1, h.2]
    · simp only [takeToNl, if_neg hc] at h
      cases hr : takeToNl rest with
      | none => rw [hr] at h; exact absurd h (by simp)
      | some ab =>
        obtain ⟨a', b'⟩ := ab
        rw [hr] at h
        simp only [Option.some_inj, Prod.mk.injEq] at h
        obtain ⟨ha, hb⟩ := h
        subst ha; subst hb
        obtain ⟨h1, h2⟩ := ih hr
        refine ⟨by simp [h1], ?_⟩
        intro hm
        rcases List.mem_cons.1 hm with h' | h'
        · exact hc h'.symm
        · exact h2 h'

theorem takeToNl_none {t : List Nat} (h : takeToNl t = none) : 10 ∉ t := by
  induction t with
  | nil => simp
  | cons c rest ih =>
    by_cases hc : c = 10
    · subst hc; simp [takeToNl] at h
    · simp only [takeToNl, if_neg hc] at h
      cases hr : takeToNl rest with
      | none =>
        intro hm
        rcases List.mem_cons.1 hm with h' | h'
        · exact hc h'.symm
        · exact ih hr h'
      | some ab => rw [hr] at h; simp at h

theorem takeToNl_complete {a : List Nat} (b : List Nat) (h : 10 ∉ a) :
    takeToNl (a ++ 10 :: b) = some (a, b) := by
  induction a with
  | nil => simp [takeToNl]
  | cons c rest ih =>
    have hc : c ≠ 10 := fun hh => h (hh ▸ List.mem_cons_self c rest)
    simp only [List.cons_append, takeToNl, if_neg hc, List.append_eq,
      ih (fun hm => h (List.mem_cons_of_mem c hm))]

/-! ## Lemmas: frame matching -/

theorem tailPayload_sound {a p : List Nat} (h : tailPayload a = some p) :
    a = p ++ [0, 0] := by
  unfold tailPayload at h
  split at h
  · next revp heq =>
    simp only [Option.some_inj] at h
    subst h
    have := congrArg List.reverse heq
    simpa using this
  · exact absurd h (by simp)

theorem tailPayload_complete (p : List Nat) : tailPayload (p ++ [0, 0]) = some p := by
  unfold tailPayload
  have : (p ++ [0, 0]).reverse = 0 :: 0 :: p.reverse := by simp
  rw [this]
  simp

theorem matchAt_sound {s p r : List Nat} (h : matchAt s = some (p, r)) :
    s = magic ++ p ++ [0, 0, 10] ++ r ∧ 10 ∉ p := by
  unfold matchAt at h
  split at h
  · next hL =>
    split at h
    · next a b ht =>
      split at h
      · next p' htp =>
        simp only [Option.some_inj, Prod.mk.injEq] at h
        obtain ⟨rfl, rfl⟩ := h
        obtain ⟨t, rfl⟩ := (leadsWith_iff magic s).1 hL
        have hdrop : (magic ++ t).drop 7 = t := rfl
        rw [hdrop] at ht
        obtain ⟨hta, hna⟩ := takeToNl_sound ht
        have ha := tailPayload_sound htp
        subst ha hta
        constructor
        · simp
        · intro hm
          exact hna (by simp [hm])
      · exact absurd h (by simp)
    · exact absurd h (by simp)
  · exact absurd h (by simp)

theorem matchAt_complete {p : List Nat} (r : List Nat) (h : 10 ∉ p) :
    matchAt (magic ++ p ++ [0, 0, 10] ++ r) = some (p, r) := by
  have hnl : 10 ∉ p ++ [0, 0] := by
    intro hm
    rcases List.mem_append.1 hm with hm | hm
    · exact h hm
    · simp at hm
  have hs : magic ++ p ++ [0, 0, 10] ++ r = magic ++ ((p ++ [0, 0]) ++ 10 :: r) := by
    simp
  rw [hs]
  unfold matchAt
  rw [if_pos (leadsWith_self_append magic _)]
  have hdrop : (magic ++ ((p ++ [0, 0]) ++ 10 :: r)).drop 7 = (p ++ [0, 0]) ++ 10 :: r := rfl
  rw [hdrop, takeToNl_complete r hnl]
  simp [tailPayload_complete]

theorem matchAt_append_some {s p r : List Nat} (c : List Nat)
    (h : matchAt s = some (p, r)) : matchAt (s ++ c) = some (p, r ++ c) := by
  obtain ⟨rfl, hp⟩ := matchAt_sound h
  have : magic ++ p ++ [0, 0, 10] ++ r ++ c = magic ++ p ++ [0, 0, 10] ++ (r ++ c) := by
    simp
  rw [this]
  exact matchAt_complete (r ++ c) hp

theorem length_lt_of_mem_drop {s : List Nat} {x : Nat} (h : x ∈ s.drop 7) :
    7 < s.length := by
  by_contra hle
  push_neg at hle
  rw [List.drop_eq_nil_of_le hle] at h
  simp at h

theorem matchAt_append_none {s : List Nat} (c : List Nat)
    (h : matchAt s = none) (h10 : 10 ∈ s.drop 7) : matchAt (s ++ c) = none := by
  have h7 : 7 < s.length := length_lt_of_mem_drop h10
  cases hL : leadsWith magic s with
  | false =>
    have : leadsWith magic (s ++ c) = false := by
      rw [leadsWith_take c (by simpa [magic] using Nat.le_of_lt h7)]
      exact hL
    unfold matchAt
    rw [this]
    simp
  | true =>
    obtain ⟨t, rfl⟩ := (leadsWith_iff magic s).1 hL
    have hdrop : (magic ++ t).drop 7 = t := rfl
    have hdrop' : (magic ++ t ++ c).drop 7 = t ++ c := by
      rw [List.append_assoc]
      exact rfl
    rw [hdrop] at h10
    unfold matchAt at h ⊢
    rw [if_pos hL] at h
    rw [if_pos (by rw [List.append_assoc]; exact leadsWith_self_append magic _), hdrop']
    rw [hdrop] at h
    cases ht : takeToNl t with
    | none => exact absurd h10 (takeToNl_none ht)
    | some ab =>
      obtain ⟨a, b⟩ := ab
      rw [ht] at h
      obtain ⟨hta, hna⟩ := takeToNl_sound ht
      have htc : takeToNl (t ++ c) = some (a, b ++ c) := by
        rw [hta, List.append_assoc]
        have : (10 :: b) ++ c = 10 :: (b ++ c) := by simp
        rw [this]
        exact takeToNl_complete (b ++ c) hna
      rw [htc]
      cases htp : tailPayload a with
      | none => simp [htp]
      | some p' => simp [htp] at h

/-! ## Lemmas: leftmost scanning and `COMMAND_RE.split` -/

theorem mem_drop_of_decomp {w : List Nat} (u : List Nat) {n x : Nat}
    (hn : n ≤ u.length) (hx : x ∈ w) : x ∈ (u ++ w).drop n := by
  rw [List.drop_append_of_le_length hn]
  exact List.mem_append.2 (Or.inr hx)

theorem scanFrame_sound {s pre p r : List Nat} {acc : List Nat}
    (h : scanFrame acc s = some (pre, p, r)) :
    ∃ pre₀, pre = acc.reverse ++ pre₀ ∧ s = pre₀ ++ magic ++ p ++ [0, 0, 10] ++ r ∧ 10 ∉ p := by
  induction s generalizing acc with
  | nil => exact absurd h (by simp [scanFrame])
  | cons b rest ih =>
    unfold scanFrame at h
    cases hm : matchAt (b :: rest) with
    | some pr =>
      obtain ⟨p0, r0⟩ := pr
      rw [hm] at h
      simp only [Option.some_inj, Prod.mk.injEq] at h
      obtain ⟨rfl, rfl, rfl⟩ := h
      obtain ⟨hb, hp⟩ := matchAt_sound hm
      exact ⟨[], by simp, by simpa using hb, hp⟩
    | none =>
      rw [hm] at h
      obtain ⟨pre₀, hpre, hrest, hp⟩ := ih h
      refine ⟨b :: pre₀, ?_, ?_, hp⟩
      · rw [hpre]; simp
      · rw [hrest]; rfl

theorem scanFrame_length {s pre p r : List Nat} {acc : List Nat}
    (h : scanFrame acc s = some (pre, p, r)) : r.length < s.length := by
  obtain ⟨pre₀, _, hs, _⟩ := scanFrame_sound h
  rw [hs]
  simp [List.length_append, magic]
  omega

theorem scanFrame_append {s pre p r : List Nat} (c : List Nat) {acc : List Nat}
    (h : scanFrame acc s = some (pre, p, r)) :
    scanFrame acc (s ++ c) = some (pre, p, r ++ c) := by
  induction s generalizing acc with
  | nil => exact absurd h (by simp [scanFrame])
  | cons b rest ih =>
    unfold scanFrame at h
    cases hm : matchAt (b :: rest) with
    | some pr =>
      obtain ⟨p0, r0⟩ := pr
      rw [hm] at h
      simp only [Option.some_inj, Prod.mk.injEq] at h
      obtain ⟨rfl, rfl, rfl⟩ := h
      have := matchAt_append_some c hm
      show scanFrame acc (b :: (rest ++ c)) = _
      unfold scanFrame
      rw [show b :: (rest ++ c) = (b :: rest) ++ c from rfl, this]
    | none =>
      rw [hm] at h
      obtain ⟨pre₀, _, hrest, _⟩ := scanFrame_sound h
      have h10 : 10 ∈ (b :: rest).drop 7 := by
        show 10 ∈ rest.drop 6
        rw [hrest]
        have hre : pre₀ ++ magic ++ p ++ [0, 0, 10] ++ r
            = (pre₀ ++ magic ++ p ++ [0, 0]) ++ 10 :: r := by simp
        rw [hre]
        exact mem_drop_of_decomp _ (by simp [magic]; omega) (List.mem_cons_self _ _)
      have hmc : matchAt ((b :: rest) ++ c) = none := matchAt_append_none c hm h10
      show scanFrame acc (b :: (rest ++ c)) = _
      unfold scanFrame
      rw [show b :: (rest ++ c) = (b :: rest) ++ c from rfl, hmc]
      exact ih h

theorem splitFramesF_nil (fuel : Nat) : splitFramesF fuel [] = ([], []) := by
  cases fuel with
  | zero => rfl
  | succ n => rfl

theorem splitFramesF_succ_some {s pre p r : List Nat} (fuel : Nat)
    (h : scanFrame [] s = some (pre, p, r)) :
    splitFramesF (fuel + 1) s
      = ((pre, p) :: (splitFramesF fuel r).1, (splitFramesF fuel r).2) := by
  show (match scanFrame [] s with
    | none => ([], s)
    | some (pre, payload, rest) =>
      ((pre, payload) :: (splitFramesF fuel rest).1, (splitFramesF fuel rest).2)) = _
  rw [h]

theorem splitFramesF_succ_none {s : List Nat} (fuel : Nat)
    (h : scanFrame [] s = none) : splitFramesF (fuel + 1) s = ([], s) := by
  show (match scanFrame [] s with
    | none => ([], s)
    | some (pre, payload, rest) =>
      ((pre, payload) :: (splitFramesF fuel rest).1, (splitFramesF fuel rest).2)) = _
  rw [h]

theorem splitFramesF_eq {s : List Nat} :
    ∀ {fuel₁ fuel₂ : Nat}, s.length ≤ fuel₁ → s.length ≤ fuel₂ →
      splitFramesF fuel₁ s = splitFramesF fuel₂ s := by
  suffices H : ∀ (fuel₁ : Nat) (s : List Nat) (fuel₂ : Nat), s.length ≤ fuel₁ →
      s.length ≤ fuel₂ → splitFramesF fuel₁ s = splitFramesF fuel₂ s by
    intro f1 f2 h1 h2
    exact H f1 s f2 h1 h2
  intro fuel₁
  induction fuel₁ with
  | zero =>
    intro s fuel₂ h1 _
    have : s = [] := List.eq_nil_of_length_eq_zero (Nat.le_zero.1 h1)
    subst this
    rw [splitFramesF_nil, splitFramesF_nil]
  | succ n ih =>
    intro s fuel₂ h1 h2
    cases fuel₂ with
    | zero =>
      have : s = [] := List.eq_nil_of_length_eq_zero (Nat.le_zero.1 h2)
      subst this
      rw [splitFramesF_nil, splitFramesF_nil]
    | succ m =>
      cases hs : scanFrame [] s with
      | none => rw [splitFramesF_succ_none n hs, splitFramesF_succ_none m hs]
      | some pr =>
        obtain ⟨pre, p, r⟩ := pr
        have hr := scanFrame_length hs
        rw [splitFramesF_succ_some n hs, splitFramesF_succ_some m hs,
          ih r m (by omega) (by omega)]

theorem splitFrames_cons {s pre p r : List Nat} (h : scanFrame [] s = some (pre, p, r)) :
    splitFrames s = ((pre, p) :: (splitFrames r).1, (splitFrames r).2) := by
  have hr := scanFrame_length h
  show splitFramesF s.length s = _
  cases hl : s.length with
  | zero => omega
  | succ k =>
    rw [splitFramesF_succ_some k h]
    rw [show splitFramesF k r = splitFrames r from splitFramesF_eq (by omega) (le_refl _)]

theorem splitFrames_none {s : List Nat} (h : scanFrame [] s = none) :
    splitFrames s = ([], s) := by
  show splitFramesF s.length s = _
  cases hl : s.length with
  | zero =>
    have : s = [] := List.eq_nil_of_length_eq_zero hl
    subst this
    rfl
  | succ k => rw [splitFramesF_succ_none k h]

theorem splitFrames_tail_none (s : List Nat) : scanFrame [] (splitFrames s).2 = none := by
  suffices H : ∀ (n : Nat) (s : List Nat), s.length ≤ n →
      scanFrame [] (splitFrames s).2 = none from H s.length s (le_refl _)
  intro n
  induction n with
  | zero =>
    intro s hs
    have : s = [] := List.eq_nil_of_length_eq_zero (Nat.le_zero.1 hs)
    subst this
    rfl
  | succ n ih =>
    intro s hs
    cases h : scanFrame [] s with
    | none => rw [splitFrames_none h]; exact h
    | some pr =>
      obtain ⟨pre, p, r⟩ := pr
      rw [splitFrames_cons h]
      exact ih r (by have := scanFrame_length h; omega)

theorem splitFrames_append (B C : List Nat) :
    splitFrames (B ++ C) =
      ((splitFrames B).1 ++ (splitFrames ((splitFrames B).2 ++ C)).1,
        (splitFrames ((splitFrames B).2 ++ C)).2) := by
  suffices H : ∀ (n : Nat) (B : List Nat), B.length ≤ n → ∀ C,
      splitFrames (B ++ C) =
        ((splitFrames B).1 ++ (splitFrames ((splitFrames B).2 ++ C)).1,
          (splitFrames ((splitFrames B).2 ++ C)).2) from H B.length B (le_refl _) C
  intro n
  induction n with
  | zero =>
    intro B hB C
    have : B = [] := List.eq_nil_of_length_eq_zero (Nat.le_zero.1 hB)
    subst this
    simp [splitFrames_none (s := []) rfl]
  | succ n ih =>
    intro B hB C
    cases h : scanFrame [] B with
    | none =>
      rw [splitFrames_none h]
      simp
    | some pr =>
      obtain ⟨pre, p, r⟩ := pr
      rw [splitFrames_cons h]
      have hBC : scanFrame [] (B ++ C) = some (pre, p, r ++ C) := scanFrame_append C h
      rw [splitFrames_cons hBC]
      have hr : r.length ≤ n := by have := scanFrame_length h; omega
      rw [ih r hr C]
      simp

theorem processReads_eq_batch :
    ∀ (reads : List (List Nat)) (buf : List Nat), scanFrame [] buf = none →
      processReads buf reads = splitFrames (buf ++ reads.flatten) := by
  intro reads
  induction reads with
  | nil =>
    intro buf hb
    show ([], buf) = _
    rw [List.flatten_nil, List.append_nil, splitFrames_none hb]
  | cons d ds ih =>
    intro buf _
    show ((splitFrames (buf ++ d)).1 ++ (processReads (splitFrames (buf ++ d)).2 ds).1,
      (processReads (splitFrames (buf ++ d)).2 ds).2) = _
    rw [ih (splitFrames (buf ++ d)).2 (splitFrames_tail_none (buf ++ d))]
    rw [List.flatten_cons, ← List.append_assoc, splitFrames_append (buf ++ d) ds.flatten]

theorem scanFrame_cons (acc : List Nat) (c : Nat) (l : List Nat) :
    scanFrame acc (c :: l) = match matchAt (c :: l) with
      | some pr => some (acc.reverse, pr.1, pr.2)
      | none => scanFrame (c :: acc) l := by
  show (match matchAt (c :: l) with
    | some (payload, after) => some (acc.reverse, payload, after)
    | none => scanFrame (c :: acc) l) = _
  cases matchAt (c :: l) with
  | none => rfl
  | some pr => cases pr; rfl

theorem scanFrame_of_matchAt {l p rest : List Nat} (acc : List Nat)
    (h : matchAt l = some (p, rest)) (hne : l ≠ []) :
    scanFrame acc l = some (acc.reverse, p, rest) := by
  cases l with
  | nil => exact absurd rfl hne
  | cons c t => rw [scanFrame_cons, h]

theorem matchAt_leadsWith {s : List Nat} {x : List Nat × List Nat}
    (h : matchAt s = some x) : leadsWith magic s = true := by
  by_contra hL
  unfold matchAt at h
  rw [if_neg hL] at h
  exact absurd h (by simp)

theorem hasSeq_of_leadsWith_mid {X w : List Nat} (hX : X ≠ [])
    (h : leadsWith magic (X ++ magic ++ w) = true) :
    hasSeq magic (X ++ magic.take 6) = true := by
  obtain ⟨t, ht⟩ := (leadsWith_iff magic _).1 h
  have hlen : magic.length = 7 := rfl
  have htake : (X ++ (magic ++ w)).take 7 = magic := by
    rw [List.append_assoc] at ht
    rw [ht, List.take_append_eq_append_take]
    have h1 : List.take 7 magic = magic := rfl
    have h2 : 7 - magic.length = 0 := rfl
    rw [h1, h2, List.take_zero, List.append_nil]
  rw [List.take_append_eq_append_take] at htake
  by_cases hm : 7 ≤ X.length
  · have hx7 : X.take 7 = magic := by
      rw [Nat.sub_eq_zero_of_le hm] at htake
      simpa using htake
    apply (hasSeq_iff magic _).2
    refine ⟨[], X.drop 7 ++ magic.take 6, ?_⟩
    rw [List.nil_append, ← List.append_assoc, ← hx7, List.take_append_drop]
  · push_neg at hm
    have hxlen : X.length ≥ 1 := by
      cases X with
      | nil => exact absurd rfl hX
      | cons a l => simp
    have hx : X.take 7 = X := List.take_of_length_le (by omega)
    have htake2 : (magic ++ w).take (7 - X.length) = magic.take (7 - X.length) := by
      rw [List.take_append_eq_append_take]
      have h2 : 7 - X.length - magic.length = 0 := by rw [hlen]; omega
      rw [h2, List.take_zero, List.append_nil]
    rw [hx, htake2] at htake
    -- magic = X ++ magic.take (7 - |X|)
    apply (hasSeq_iff magic _).2
    have hsplit : magic.take 6 = magic.take (7 - X.length)
        ++ (magic.drop (7 - X.length)).take (6 - (7 - X.length)) := by
      rw [← List.take_add]
      congr 1
      omega
    refine ⟨[], (magic.drop (7 - X.length)).take (6 - (7 - X.length)), ?_⟩
    rw [List.nil_append, hsplit, ← List.append_assoc, htake]

theorem scanFrame_noise {p : List Nat} (hp : 10 ∉ p) (rest : List Nat) :
    ∀ (n acc : List Nat), hasSeq magic (n ++ magic.take 6) = false →
      scanFrame acc (n ++ frameBytes p ++ rest) = some (acc.reverse ++ n, p, rest) := by
  intro n
  induction n with
  | nil =>
    intro acc _
    have hm : matchAt (frameBytes p ++ rest) = some (p, rest) := by
      have : frameBytes p ++ rest = magic ++ p ++ [0, 0, 10] ++ rest := by
        unfold frameBytes; simp
      rw [this]
      exact matchAt_complete rest hp
    rw [List.nil_append]
    rw [scanFrame_of_matchAt acc hm (by unfold frameBytes magic; simp)]
    simp
  | cons b n' ih =>
    intro acc hn
    have hnone : matchAt ((b :: n') ++ frameBytes p ++ rest) = none := by
      cases hmm : matchAt ((b :: n') ++ frameBytes p ++ rest) with
      | none => rfl
      | some x =>
        exfalso
        have hl := matchAt_leadsWith hmm
        have heq : (b :: n') ++ frameBytes p ++ rest
            = (b :: n') ++ magic ++ (p ++ [0, 0, 10] ++ rest) := by
          unfold frameBytes; simp
        rw [heq] at hl
        have := hasSeq_of_leadsWith_mid (by simp) hl
        rw [this] at hn
        exact absurd hn (by simp)
    have hstep : (b :: n') ++ frameBytes p ++ rest
        = b :: (n' ++ frameBytes p ++ rest) := by simp
    rw [hstep] at hnone ⊢
    rw [scanFrame_cons, hnone]
    have hn' : hasSeq magic (n' ++ magic.take 6) = false := by
      have hdef : hasSeq magic ((b :: n') ++ magic.take 6)
          = (leadsWith magic ((b :: n') ++ magic.take 6)
            || hasSeq magic (n' ++ magic.take 6)) := rfl
      rw [hdef] at hn
      exact (Bool.or_eq_false_iff.1 hn).2
    rw [ih (b :: acc) hn']
    simp

theorem splitFrames_flattenPairs :
    ∀ (pairs : List (List Nat × List Nat)) (tail : List Nat),
      (∀ pr ∈ pairs, 10 ∉ pr.2) →
      (∀ pr ∈ pairs, hasSeq magic (pr.1 ++ magic.take 6) = false) →
      scanFrame [] tail = none →
      splitFrames (flattenPairs pairs tail) = (pairs, tail) := by
  intro pairs
  induction pairs with
  | nil =>
    intro tail _ _ ht
    exact splitFrames_none ht
  | cons pr rest ih =>
    intro tail hp hn ht
    obtain ⟨n, p⟩ := pr
    show splitFrames (n ++ frameBytes p ++ flattenPairs rest tail) = _
    have hsf := scanFrame_noise (hp (n, p) (by simp)) (flattenPairs rest tail) n []
      (hn (n, p) (by simp))
    rw [splitFrames_cons (by simpa using hsf)]
    rw [ih tail (fun x hx => hp x (by simp [hx])) (fun x hx => hn x (by simp [hx])) ht]

theorem flattenPairs_cons_ne_nil (n p : List Nat) (rest : List (List Nat × List Nat))
    (tail : List Nat) : flattenPairs ((n, p) :: rest) tail ≠ [] := by
  show n ++ frameBytes p ++ flattenPairs rest tail ≠ []
  intro h
  have := congrArg List.length h
  simp [frameBytes, magic] at this

/-! ## Claim theorems: framing (C4, C7, C2) -/

/-- C4: For every byte sequence consisting of stderr noise with zero or
more embedded frames (payloads LF-free, noise chunks containing no
occurrence of the frame magic — also none straddling into a following
frame — and the trailing noise containing no complete frame), and for
every way of splitting that sequence into successive non-empty reads
delivered without fds, the agent invokes exactly the framed commands in
stream order, each paired with the stderr bytes lying between the
previous frame and its own, with the same final buffer — identical to
processing the whole sequence as a single read (the single-read case is
the instance `reads = [flattenPairs pairs tail]`). -/
theorem frame_robustness (pairs : List (List Nat × List Nat)) (tail : List Nat)
    (reads : List (List Nat))
    (hflat : reads.flatten = flattenPairs pairs tail)
    (hne : ∀ r ∈ reads, r ≠ [])
    (hp : ∀ pr ∈ pairs, 10 ∉ pr.2)
    (hn : ∀ pr ∈ pairs, hasSeq magic (pr.1 ++ magic.take 6) = false)
    (ht : scanFrame [] tail = none) :
    processReads [] reads = (pairs, tail) := by
  have _ := hne
  rw [processReads_eq_batch reads [] rfl, List.nil_append, hflat]
  exact splitFrames_flattenPairs pairs tail hp hn ht

/-- Witness for C4: the stream `A <frame 1> B <frame 2> C` chopped into
two reads with the boundary inside the first frame's magic produces
exactly the two invocations `(A, 1)` and `(B, 2)` with buffer `C`. -/
theorem frame_robustness_witness :
    ([[65, 0, 102], [101, 114, 110, 121, 0, 49, 0, 0, 10, 66, 0, 102, 101, 114,
        110, 121, 0, 50, 0, 0, 10, 67]] : List (List Nat)).flatten
      = flattenPairs [([65], [49]), ([66], [50])] [67]
    ∧ processReads []
        [[65, 0, 102], [101, 114, 110, 121, 0, 49, 0, 0, 10, 66, 0, 102, 101, 114,
          110, 121, 0, 50, 0, 0, 10, 67]]
      = ([([65], [49]), ([66], [50])], [67]) :=
  ⟨by decide,
    frame_robustness [([65], [49]), ([66], [50])] [67] _
      (by decide) (by decide) (by decide) (by decide) (by decide)⟩

/-- C7 counterexample: in the single read `A <frame 1> B <frame 2>` the
second remote command's stderr snapshot is exactly `B` — it does not
contain `A` (byte 65), the stderr that preceded the first frame, so the
"full history" stated by the claim is absent.  (`COMMAND_RE.split`
consumes each frame's preceding chunk, interaction_agent.py lines
307-311.) -/
theorem remote_cursor_counterexample :
    got_data [] ([65] ++ frameBytes [49] ++ [66] ++ frameBytes [50]) [] []
      = .ok [⟨[65], [49], []⟩, ⟨[66], [50], []⟩] []
    ∧ (65 : Nat) ∉ ([66] : List Nat) := by
  constructor
  · decide
  · decide

/-- C7 (amended): after a remote command is dispatched, the stderr bytes
preceding its frame are consumed from the buffer; for a stream with two
remote framed commands, the second command's stderr snapshot is exactly
the bytes between the first frame and its own frame, and the buffer
keeps only the bytes after the last frame.  (The buffer is reset to
empty only by the local-command path.) -/
theorem remote_cursor_consumed (n₁ p₁ n₂ p₂ tail fdp : List Nat)
    (hp₁ : 10 ∉ p₁) (hp₂ : 10 ∉ p₂)
    (hn₁ : hasSeq magic (n₁ ++ magic.take 6) = false)
    (hn₂ : hasSeq magic (n₂ ++ magic.take 6) = false)
    (ht : scanFrame [] tail = none) :
    got_data [] (flattenPairs [(n₁, p₁), (n₂, p₂)] tail) [] fdp
      = .ok [⟨n₁, p₁, []⟩, ⟨n₂, p₂, []⟩] tail := by
  unfold got_data
  rw [if_neg (flattenPairs_cons_ne_nil n₁ p₁ _ tail)]
  rw [List.nil_append]
  rw [splitFrames_flattenPairs [(n₁, p₁), (n₂, p₂)] tail
    (by simp; exact ⟨hp₁, hp₂⟩)
    (by simp; exact ⟨hn₁, hn₂⟩)
    ht]
  simp

/-- Witness for C7's amended theorem at the counterexample's stream. -/
theorem remote_cursor_consumed_witness :
    got_data [] (flattenPairs [([65], [49]), ([66], [50])] [67]) [] []
      = .ok [⟨[65], [49], []⟩, ⟨[66], [50], []⟩] [67] :=
  remote_cursor_consumed [65] [49] [66] [50] [67] []
    (by decide) (by decide) (by decide) (by decide) (by decide)

/-- C2: the askpass client (interaction_client.py lines 10-18) sends the
datagram `\0ferny\0repr((argv, env))` with the two fds; the agent
(interaction_agent.py lines 313-320), on a message carrying fds, asserts
that the accumulated buffer ends with a NUL byte.  `repr` of a tuple
ends with `)` (byte 41), never NUL, so the assertion fails
(`.assertViolation`) and no command is ever dispatched to the handler —
the dispatch described by the claim does not happen.  The input below is
the exact datagram for `argv = ['a']`, `env = {}` (payload bytes of
`(['a'], {})`), with fds modelled as `[7, 1]`. -/
theorem askpass_datagram_rejected :
    got_data [] (interactPacket [40, 91, 39, 97, 39, 93, 44, 32, 123, 125, 41])
      [7, 1] [] = .assertViolation := by
  decide

/-! ## Lemmas: prompt splitting (C8) -/

theorem lastNlIdx_none_not_mem {l : List Char} (h : lastNlIdx l = none) : '\n' ∉ l := by
  induction l with
  | nil => simp
  | cons c rest ih =>
    unfold lastNlIdx at h
    cases hr : lastNlIdx rest with
    | some i => rw [hr] at h; exact absurd h (by simp)
    | none =>
      rw [hr] at h
      by_cases hc : c = '\n'
      · rw [if_pos hc] at h; exact absurd h (by simp)
      · rw [if_neg hc] at h
        intro hm
        rcases List.mem_cons.1 hm with h' | h'
        · exact hc h'.symm
        · exact ih hr h'

theorem lastNlIdx_max {l : List Char} {i : Nat} (h : lastNlIdx l = some i) :
    ∀ j, i < j → l.get? j ≠ some '\n' := by
  induction l generalizing i with
  | nil => exact absurd h (by simp [lastNlIdx])
  | cons c rest ih =>
    unfold lastNlIdx at h
    cases hr : lastNlIdx rest with
    | some k =>
      rw [hr] at h
      simp only [Option.some_inj] at h
      subst h
      intro j hj
      cases j with
      | zero => omega
      | succ m =>
        show rest.get? m ≠ some '\n'
        exact ih hr m (by omega)
    | none =>
      rw [hr] at h
      by_cases hc : c = '\n'
      · rw [if_pos hc] at h
        simp only [Option.some_inj] at h
        subst h
        intro j hj
        cases j with
        | zero => omega
        | succ m =>
          show rest.get? m ≠ some '\n'
          intro hsome
          exact lastNlIdx_none_not_mem hr (List.get?_mem hsome)
      · rw [if_neg hc] at h
        exact absurd h (by simp)

theorem splitPrompt_append (s : List Char) :
    (splitPrompt s).1 ++ (splitPrompt s).2 = s := by
  unfold splitPrompt
  cases h : lastNlIdx (s.take (s.length - 1)) with
  | none => simp
  | some i => simp [List.take_append_drop]

theorem splitPrompt_no_nl (s : List Char) : '\n' ∉ (splitPrompt s).2.dropLast := by
  unfold splitPrompt
  cases h : lastNlIdx (s.take (s.length - 1)) with
  | none =>
    show '\n' ∉ s.dropLast
    rw [List.dropLast_eq_take]
    exact lastNlIdx_none_not_mem h
  | some i =>
    show '\n' ∉ (s.drop (i + 1)).dropLast
    intro hmem
    obtain ⟨m, hm⟩ := List.mem_iff_get?.1 hmem
    rw [List.dropLast_eq_take] at hm
    have hmlt : m < (s.drop (i + 1)).length - 1 := by
      by_contra hge
      push_neg at hge
      have : ((s.drop (i + 1)).take ((s.drop (i + 1)).length - 1)).get? m = none := by
        apply List.get?_eq_none.2
        rw [List.length_take]
        omega
      rw [this] at hm
      exact absurd hm (by simp)
    rw [List.get?_take hmlt, List.get?_drop] at hm
    have hlen : (s.drop (i + 1)).length = s.length - (i + 1) := List.length_drop _ _
    have hj : (s.take (s.length - 1)).get? (i + 1 + m) = some '\n' := by
      rw [List.get?_take (by omega)]
      exact hm
    exact lastNlIdx_max h (i + 1 + m) (by omega) hj

theorem categorize_fields (s e : List Char) :
    (categorize_ssh_prompt s e).prompt = (splitPrompt s).2
    ∧ (categorize_ssh_prompt s e).messages = (splitPrompt s).1 := by
  unfold categorize_ssh_prompt
  dsimp only
  constructor <;>
  · repeat' split
    all_goals rfl

/-- C8: for every prompt string, the classifier's `messages` and
`prompt` satisfy `messages ++ prompt = string` and `prompt` contains no
LF except (optionally) as its final character; and the catalogue string
`"lis@srv's password: "` with empty stderr classifies as the password
prompt with username `lis`, hostname `srv`, and empty messages. -/
theorem prompt_round_trip :
    (∀ (s stderr : List Char),
      (categorize_ssh_prompt s stderr).messages ++ (categorize_ssh_prompt s stderr).prompt = s
      ∧ '\n' ∉ (categorize_ssh_prompt s stderr).prompt.dropLast)
    ∧ categorize_ssh_prompt ("lis@srv\x27s password: ".toList) []
      = ⟨.password "lis".toList "srv".toList, "lis@srv\x27s password: ".toList, [], []⟩ := by
  constructor
  · intro s stderr
    obtain ⟨hp, hm⟩ := categorize_fields s stderr
    rw [hp, hm]
    exact ⟨splitPrompt_append s, splitPrompt_no_nl s⟩
  · decide

/-! ## Claim theorems: ssh stderr classification (C6) -/

/-- C6 counterexample: a stderr that contains both the
"Host key verification failed." line and the changed-host-key warning,
but also an authentication-failure line, classifies as
`SshAuthenticationError` — not as the changed-host-key sub-variant —
because the authentication pattern is searched first (spec §4.4 lists it
first; the classifier is modelled from the spec, `ssh_errors.py` being
absent from the sources). -/
theorem changed_host_key_counterexample :
    hostKeyLineHit ("a: Permission denied (password).\nWARNING: REMOTE HOST IDENTIFICATION HAS CHANGED\nHost key verification failed.\n".toList) = true
    ∧ changedMarker ("a: Permission denied (password).\nWARNING: REMOTE HOST IDENTIFICATION HAS CHANGED\nHost key verification failed.\n".toList) = true
    ∧ get_exception_for_ssh_stderr (fun _ => none) (fun _ => none)
        "a: Permission denied (password).\nWARNING: REMOTE HOST IDENTIFICATION HAS CHANGED\nHost key verification failed.\n"
      = .sshAuthenticationError "a" ["password"]
        "a: Permission denied (password).\nWARNING: REMOTE HOST IDENTIFICATION HAS CHANGED\nHost key verification failed.\n"
    ∧ isChangedHostKey (get_exception_for_ssh_stderr (fun _ => none) (fun _ => none)
        "a: Permission denied (password).\nWARNING: REMOTE HOST IDENTIFICATION HAS CHANGED\nHost key verification failed.\n") = false := by
  refine ⟨by decide, by decide, by decide, by decide⟩

/-- C6 (amended): for every stderr string that contains a line reading
"Host key verification failed." and contains
"WARNING: REMOTE HOST IDENTIFICATION HAS CHANGED", and that does not
match the authentication-failure pattern, the classification returns the
changed-host-key sub-variant rather than the generic host-key error. -/
theorem changed_host_key_classification (gaiTable strerrorTable : String → Option Int)
    (s : String)
    (hhk : hostKeyLineHit s.toList = true)
    (hch : changedMarker s.toList = true)
    (hauth : authSearch s.toList = none) :
    get_exception_for_ssh_stderr gaiTable strerrorTable s = .sshChangedHostKeyError s := by
  simp only [get_exception_for_ssh_stderr, hauth, hhk, hch, if_true]

/-- Witness for C6's amended theorem: the changed-host-key stderr from
the repository's own test catalogue shape (no authentication line). -/
theorem changed_host_key_classification_witness :
    hostKeyLineHit ("WARNING: REMOTE HOST IDENTIFICATION HAS CHANGED\nHost key verification failed.\n".toList) = true
    ∧ get_exception_for_ssh_stderr (fun _ => none) (fun _ => none)
        "WARNING: REMOTE HOST IDENTIFICATION HAS CHANGED\nHost key verification failed.\n"
      = .sshChangedHostKeyError
        "WARNING: REMOTE HOST IDENTIFICATION HAS CHANGED\nHost key verification failed.\n" :=
  ⟨by decide,
    changed_host_key_classification (fun _ => none) (fun _ => none) _
      (by decide) (by decide) (by decide)⟩

/-! ## Lemmas: agent result / completion life-cycle -/

theorem consider_completion_cases (s : AgentCore) :
    consider_completion s = s
    ∨ (s.pending ≠ none ∧ s.tasks = [] ∧ s.completion = none
        ∧ consider_completion s = { s with completion := s.pending }) := by
  unfold consider_completion
  by_cases h1 : s.pending = none ∨ s.tasks ≠ []
  · rw [if_pos h1]
    exact Or.inl rfl
  · rw [if_neg h1]
    push_neg at h1
    by_cases h2 : s.completion.isSome
    · rw [if_pos h2]
      exact Or.inl rfl
    · rw [if_neg h2]
      exact Or.inr ⟨h1.1, h1.2, Option.not_isSome_iff_eq_none.1 h2, rfl⟩

theorem cc_pending (s : AgentCore) : (consider_completion s).pending = s.pending := by
  rcases consider_completion_cases s with h | ⟨_, _, _, h⟩ <;> rw [h]

theorem agentInv_consider {s : AgentCore} (h : AgentInv s) :
    AgentInv (consider_completion s) := by
  rcases consider_completion_cases s with hc | ⟨hp, ht, _, hc⟩
  · rw [hc]; exact h
  · rw [hc]
    obtain ⟨h1, h2, _, h4, _⟩ := h
    refine ⟨h1, h2, ?_, h4, ?_⟩
    · intro v hv
      simpa using hv
    · intro _
      exact ht

theorem resultA_none {s : AgentCore} (hp : s.pending = none) (r : ARes) :
    resultA s r = consider_completion
      { s with
        pending := some r
        readerActive := false
        cancelRequested := s.cancelRequested ++ s.tasks
        socketOpen := false } := by
  unfold resultA
  rw [if_pos hp]

theorem resultA_some {s : AgentCore} (hp : ¬ s.pending = none) (r : ARes) :
    resultA s r = consider_completion
      { s with
        readerActive := false
        cancelRequested := s.cancelRequested ++ s.tasks
        socketOpen := false } := by
  unfold resultA
  rw [if_neg hp]

theorem agentInv_resultA {s : AgentCore} (r : ARes)
    (h1 : s.readerActive = true → s.pending = none)
    (h2 : s.endSeen = true →
      (∃ t, s.pending = some (.str t)) ∨ (s.pending = none ∧ r.isStr = true))
    (h3 : ∀ v, s.completion = some v → s.pending = some v)
    (h5 : s.completion ≠ none → s.tasks = []) :
    AgentInv (resultA s r) := by
  have _ := h1
  by_cases hp : s.pending = none
  · rw [resultA_none hp r]
    apply agentInv_consider
    refine ⟨fun hx => absurd hx (by simp), ?_, ?_, ?_, ?_⟩
    · intro hend
      rcases h2 hend with ⟨t, hsome⟩ | ⟨_, hstr⟩
      · rw [hp] at hsome
        exact absurd hsome (by simp)
      · cases r with
        | str t => exact ⟨t, rfl⟩
        | exc e => exact absurd hstr (by simp [ARes.isStr])
    · intro v hv
      have hx := h3 v hv
      rw [hp] at hx
      exact absurd hx (by simp)
    · intro _
      exact show s.tasks ⊆ s.cancelRequested ++ s.tasks from List.subset_append_right _ _
    · intro hc
      exact h5 hc
  · rw [resultA_some hp r]
    apply agentInv_consider
    refine ⟨fun hx => absurd hx (by simp), ?_, ?_, ?_, ?_⟩
    · intro hend
      rcases h2 hend with ⟨t, hsome⟩ | ⟨hnone, _⟩
      · exact ⟨t, hsome⟩
      · exact absurd hnone hp
    · intro v hv
      exact h3 v hv
    · intro _
      exact show s.tasks ⊆ s.cancelRequested ++ s.tasks from List.subset_append_right _ _
    · intro hc
      exact h5 hc

theorem agentInv_erase {s : AgentCore} (h : AgentInv s) (id : Nat) :
    AgentInv { s with tasks := s.tasks.erase id } := by
  obtain ⟨h1, h2, h3, h4, h5⟩ := h
  refine ⟨?_, ?_, ?_, ?_, ?_⟩
  · intro hr; exact h1 (by simpa using hr)
  · intro he; exact h2 (by simpa using he)
  · intro v hv; exact h3 v (by simpa using hv)
  · intro hp
    simp only
    exact fun a ha => h4 (by simpa using hp) (List.erase_subset _ _ ha)
  · intro hc
    simp only
    rw [h5 (by simpa using hc)]
    rfl

theorem agentInv_step {s : AgentCore} (h : AgentInv s) (ev : AEvent) :
    AgentInv (stepA s ev) := by
  obtain ⟨h1, h2, h3, h5sub⟩ := h
  obtain ⟨h4, h5⟩ := h5sub
  cases ev with
  | readErr n =>
    show AgentInv (if s.readerActive then resultA s (.exc (.osError n "")) else s)
    by_cases hr : s.readerActive
    · rw [if_pos hr]
      exact agentInv_resultA _ h1 (fun he => Or.inl (h2 he)) h3 h5
    · rw [if_neg hr]
      exact ⟨h1, h2, h3, h4, h5⟩
  | readEof =>
    show AgentInv (if s.readerActive then resultA s (.str s.buffer) else s)
    by_cases hr : s.readerActive
    · rw [if_pos hr]
      exact agentInv_resultA _ h1 (fun he => Or.inl (h2 he)) h3 h5
    · rw [if_neg hr]
      exact ⟨h1, h2, h3, h4, h5⟩
  | readNoise d =>
    show AgentInv (if s.readerActive then { s with buffer := s.buffer ++ d } else s)
    by_cases hr : s.readerActive
    · rw [if_pos hr]
      refine ⟨fun hx => h1 (by simpa using hx), fun hx => by simpa using h2 (by simpa using hx),
        fun v hv => by simpa using h3 v (by simpa using hv),
        fun hp => by simpa using h4 (by simpa using hp),
        fun hc => by simpa using h5 (by simpa using hc)⟩
    · rw [if_neg hr]
      exact ⟨h1, h2, h3, h4, h5⟩
  | readCmd m =>
    show AgentInv (if s.readerActive then invoke_command s m else s)
    by_cases hr : s.readerActive
    · rw [if_pos hr]
      have hpn : s.pending = none := h1 hr
      cases m with
      | malformed => exact ⟨h1, h2, h3, h4, h5⟩
      | unknown => exact ⟨h1, h2, h3, h4, h5⟩
      | endCmd =>
        show AgentInv (resultA { s with endSeen := true } (.str s.buffer))
        apply agentInv_resultA
        · intro _
          exact hpn
        · intro _
          exact Or.inr ⟨hpn, by simp [ARes.isStr]⟩
        · intro v hv
          have hx := h3 v hv
          rw [hpn] at hx
          exact absurd hx (by simp)
        · intro hc
          have hv : ∃ v, s.completion = some v := by
            cases hx : s.completion with
            | none => exact absurd hx hc
            | some v => exact ⟨v, rfl⟩
          obtain ⟨v, hv⟩ := hv
          have hx := h3 v hv
          rw [hpn] at hx
          exact absurd hx (by simp)
      | known =>
        show AgentInv { s with tasks := s.tasks ++ [s.nextId], nextId := s.nextId + 1 }
        refine ⟨?_, ?_, ?_, ?_, ?_⟩
        · intro _
          exact hpn
        · intro he
          obtain ⟨t, ht⟩ := h2 he
          rw [hpn] at ht
          exact absurd ht (by simp)
        · intro v hv
          have hx := h3 v hv
          rw [hpn] at hx
          exact absurd hx (by simp)
        · intro hp
          exact absurd hpn hp
        · intro hc
          have hv : ∃ v, s.completion = some v := by
            cases hx : s.completion with
            | none => exact absurd hx hc
            | some v => exact ⟨v, rfl⟩
          obtain ⟨v, hv⟩ := hv
          have hx := h3 v hv
          rw [hpn] at hx
          exact absurd hx (by simp)
    · rw [if_neg hr]
      exact ⟨h1, h2, h3, h4, h5⟩
  | taskDone id outcome =>
    show AgentInv (bottom_half s id outcome)
    unfold bottom_half
    by_cases hid : id ∈ s.tasks
    · rw [if_pos hid]
      have hinv1 : AgentInv { s with tasks := s.tasks.erase id } :=
        agentInv_erase ⟨h1, h2, h3, h4, h5⟩ id
      obtain ⟨g1, g2, g3, g4, g5⟩ := hinv1
      cases outcome with
      | ok => exact agentInv_consider ⟨g1, g2, g3, g4, g5⟩
      | cancelled => exact agentInv_consider ⟨g1, g2, g3, g4, g5⟩
      | raised e =>
        apply agentInv_consider
        exact agentInv_resultA _ g1 (fun he => Or.inl (g2 he)) g3 g5
    · rw [if_neg hid]
      exact ⟨h1, h2, h3, h4, h5⟩
  | force drain =>
    show AgentInv (force_completion s drain)
    cases drain with
    | drained extra =>
      show AgentInv (if s.socketOpen then
        resultA { s with buffer := s.buffer ++ extra } (.str (s.buffer ++ extra))
        else resultA s (.str s.buffer))
      by_cases hs : s.socketOpen
      · rw [if_pos hs]
        apply agentInv_resultA
        · intro hx; exact h1 (by simpa using hx)
        · intro hx
          obtain ⟨t, ht⟩ := h2 (by simpa using hx)
          exact Or.inl ⟨t, by simpa using ht⟩
        · intro v hv; exact h3 v (by simpa using hv)
        · intro hc; exact h5 (by simpa using hc)
      · rw [if_neg hs]
        exact agentInv_resultA _ h1 (fun he => Or.inl (h2 he)) h3 h5
    | drainError n =>
      show AgentInv (if s.socketOpen then resultA s (.exc (.osError n ""))
        else resultA s (.str s.buffer))
      by_cases hs : s.socketOpen
      · rw [if_pos hs]
        exact agentInv_resultA _ h1 (fun he => Or.inl (h2 he)) h3 h5
      · rw [if_neg hs]
        exact agentInv_resultA _ h1 (fun he => Or.inl (h2 he)) h3 h5

theorem agentInv_init : AgentInv initAgent := by
  refine ⟨fun _ => rfl, ?_, ?_, ?_, ?_⟩
  · intro h
    exact absurd h (by simp [initAgent])
  · intro v hv
    exact absurd hv (by simp [initAgent])
  · intro hp
    exact absurd rfl hp
  · intro hc
    exact absurd rfl hc

theorem agentInv_run (evs : List AEvent) :
    ∀ s : AgentCore, AgentInv s → AgentInv (runA s evs) := by
  induction evs with
  | nil => intro s h; exact h
  | cons ev evs ih =>
    intro s h
    exact ih (stepA s ev) (agentInv_step h ev)

theorem resultA_pending (s : AgentCore) (r : ARes) :
    (resultA s r).pending = match s.pending with
      | some x => some x
      | none => some r := by
  by_cases hp : s.pending = none
  · rw [resultA_none hp r, cc_pending, hp]
  · rw [resultA_some hp r, cc_pending]
    cases hx : s.pending with
    | none => exact absurd hx hp
    | some x => rfl

theorem stepA_pending (s : AgentCore) (ev : AEvent) :
    (stepA s ev).pending = match s.pending with
      | some x => some x
      | none => (recordedA s ev).head? := by
  cases ev with
  | readErr n =>
    simp only [stepA, recordedA]
    split_ifs with hr
    · rw [resultA_pending]
      cases s.pending <;> rfl
    · cases s.pending <;> rfl
  | readEof =>
    simp only [stepA, recordedA]
    split_ifs with hr
    · rw [resultA_pending]
      cases s.pending <;> rfl
    · cases s.pending <;> rfl
  | readNoise d =>
    simp only [stepA, recordedA]
    split_ifs with hr
    · cases s.pending <;> rfl
    · cases s.pending <;> rfl
  | readCmd m =>
    cases m with
    | endCmd =>
      simp only [stepA, recordedA, invoke_command]
      split_ifs with hr
      · rw [resultA_pending]
        cases s.pending <;> rfl
      · cases s.pending <;> rfl
    | known =>
      simp only [stepA, recordedA, invoke_command]
      split_ifs with hr
      · cases s.pending <;> rfl
      · cases s.pending <;> rfl
    | unknown =>
      simp only [stepA, recordedA, invoke_command]
      split_ifs with hr
      · cases s.pending <;> rfl
      · cases s.pending <;> rfl
    | malformed =>
      simp only [stepA, recordedA, invoke_command]
      split_ifs with hr
      · cases s.pending <;> rfl
      · cases s.pending <;> rfl
  | taskDone id outcome =>
    simp only [stepA, recordedA, bottom_half]
    split_ifs with hid
    · cases outcome with
      | ok =>
        rw [cc_pending]
        cases s.pending <;> rfl
      | cancelled =>
        rw [cc_pending]
        cases s.pending <;> rfl
      | raised e =>
        rw [cc_pending, resultA_pending]
        cases s.pending <;> rfl
    · cases s.pending <;> rfl
  | force drain =>
    cases drain with
    | drained extra =>
      simp only [stepA, recordedA, force_completion]
      split_ifs with hs
      · rw [resultA_pending]
        cases s.pending <;> rfl
      · rw [resultA_pending]
        cases s.pending <;> rfl
    | drainError n =>
      simp only [stepA, recordedA, force_completion]
      split_ifs with hs
      · rw [resultA_pending]
        cases s.pending <;> rfl
      · rw [resultA_pending]
        cases s.pending <;> rfl

theorem runA_pending_records (evs : List AEvent) :
    ∀ s : AgentCore, (runA s evs).pending
      = match s.pending with
        | some r => some r
        | none => (traceRecords s evs).head? := by
  induction evs with
  | nil =>
    intro s
    show s.pending = match s.pending with
      | some r => some r
      | none => (([] : List ARes)).head?
    cases s.pending <;> rfl
  | cons ev evs ih =>
    intro s
    show (runA (stepA s ev) evs).pending = _
    rw [ih (stepA s ev), stepA_pending s ev]
    show _ = match s.pending with
      | some r => some r
      | none => (recordedA s ev ++ traceRecords (stepA s ev) evs).head?
    cases hsp : s.pending with
    | some r => rfl
    | none =>
      cases hrec : recordedA s ev with
      | nil => rfl
      | cons r0 rlist => rfl

/-! ## Claim theorems: agent life-cycle (C5, C9, C10) -/

/-- C9: whenever the agent has recorded a terminal result (zero-length
read, socket OS error, the `ferny.end` sentinel, forced completion, or a
handler exception — every path through `_result`), every handler task
still in flight has had `cancel()` called on it, and the completion
future is resolved only with no task in flight. -/
theorem result_cancels_inflight (evs : List AEvent) :
    ((runA initAgent evs).pending.isSome = true →
      (runA initAgent evs).tasks ⊆ (runA initAgent evs).cancelRequested)
    ∧ ((runA initAgent evs).completion.isSome = true → (runA initAgent evs).tasks = []) := by
  have h := agentInv_run evs initAgent agentInv_init
  obtain ⟨_, _, _, h4, h5⟩ := h
  constructor
  · intro hp
    exact h4 (by cases hx : (runA initAgent evs).pending <;> simp_all)
  · intro hc
    exact h5 (by cases hx : (runA initAgent evs).completion <;> simp_all)

/-- Witness for C9: spawn a handler task, hit EOF (result recorded, task
cancelled), then the task completes as cancelled and completion
resolves. -/
theorem result_cancels_inflight_witness :
    (runA initAgent [.readCmd .known, .readEof, .taskDone 0 .cancelled]).pending.isSome = true
    ∧ (runA initAgent [.readCmd .known, .readEof, .taskDone 0 .cancelled]).tasks
      ⊆ (runA initAgent [.readCmd .known, .readEof, .taskDone 0 .cancelled]).cancelRequested
    ∧ (runA initAgent [.readCmd .known, .readEof, .taskDone 0 .cancelled]).completion.isSome = true
    ∧ (runA initAgent [.readCmd .known, .readEof, .taskDone 0 .cancelled]).tasks = [] :=
  ⟨by decide,
    (result_cancels_inflight [.readCmd .known, .readEof, .taskDone 0 .cancelled]).1 (by decide),
    by decide,
    (result_cancels_inflight [.readCmd .known, .readEof, .taskDone 0 .cancelled]).2 (by decide)⟩

/-- C10: the pending result is write-once — after any event sequence the
recorded pending result is the first `_result` argument of the trace,
and the completion future, once resolved, delivers exactly that first
recorded result; anything recorded later (including a handler exception
arriving after a string result) is discarded. -/
theorem pending_write_once (evs : List AEvent) :
    (runA initAgent evs).pending = (traceRecords initAgent evs).head?
    ∧ (∀ v, (runA initAgent evs).completion = some v
        → (traceRecords initAgent evs).head? = some v) := by
  have h := runA_pending_records evs initAgent
  have hpend : (runA initAgent evs).pending = (traceRecords initAgent evs).head? := h
  refine ⟨hpend, ?_⟩
  intro v hv
  have h3 := (agentInv_run evs initAgent agentInv_init).2.2.1 v hv
  rw [← hpend]
  exact h3

/-- Witness for C10: a handler exception recorded after the EOF string
result is discarded; completion delivers the first record. -/
theorem pending_write_once_witness :
    traceRecords initAgent
        [.readCmd .known, .readEof, .taskDone 0 (.raised (.userException "boom"))]
      = [.str "", .exc (.userException "boom")]
    ∧ (runA initAgent
        [.readCmd .known, .readEof, .taskDone 0 (.raised (.userException "boom"))]).completion
      = some (.str "")
    ∧ (traceRecords initAgent
        [.readCmd .known, .readEof, .taskDone 0 (.raised (.userException "boom"))]).head?
      = some (.str "") :=
  ⟨by decide, by decide,
    (pending_write_once [.readCmd .known, .readEof,
      .taskDone 0 (.raised (.userException "boom"))]).2 (.str "") (by decide)⟩

/-- C5 counterexample: a handler raises `ValueError`-like exception
`boom`; the agent reaches completion without ever receiving the
`ferny.end` sentinel, yet `communicate()` raises that exception — not an
`InteractionError` — contradicting the claim's "exactly when". -/
theorem communicate_counterexample :
    (runA initAgent [.readCmd .known, .taskDone 0 (.raised (.userException "boom"))]).completion
      = some (.exc (.userException "boom"))
    ∧ (runA initAgent [.readCmd .known, .taskDone 0 (.raised (.userException "boom"))]).endSeen
      = false
    ∧ raisesInteractionError
        (communicateOutcome (.exc (.userException "boom")) false) = false := by
  refine ⟨by decide, by decide, by decide⟩

/-- C5 (amended): when the completion future resolves with a string
(stderr) result and the sentinel was never seen, `communicate()` raises
`InteractionError` with the stripped stderr; when it resolves with an
exception, that exception propagates instead; and when the sentinel was
seen, the completion value is necessarily a string result and
`communicate()` returns normally. -/
theorem communicate_outcome (evs : List AEvent) (v : ARes)
    (hc : (runA initAgent evs).completion = some v) :
    ((runA initAgent evs).endSeen = true →
      v.isStr = true ∧ communicateOutcome v true = none)
    ∧ ((runA initAgent evs).endSeen = false →
      communicateOutcome v false
        = match v with
          | .str t => some (.interactionError (pyStrip t))
          | .exc e => some e) := by
  have hinv := agentInv_run evs initAgent agentInv_init
  constructor
  · intro hend
    obtain ⟨t, ht⟩ := hinv.2.1 hend
    have hpv := hinv.2.2.1 v hc
    rw [hpv] at ht
    simp only [Option.some_inj] at ht
    subst ht
    exact ⟨rfl, rfl⟩
  · intro _
    cases v <;> rfl

/-- Witness for C5's amended theorem: sentinel seen after noise `x`;
completion carries the string and `communicate` returns normally. -/
theorem communicate_outcome_witness :
    (runA initAgent [.readNoise "x", .readCmd .endCmd]).completion = some (.str "x")
    ∧ (runA initAgent [.readNoise "x", .readCmd .endCmd]).endSeen = true
    ∧ (ARes.str "x").isStr = true
    ∧ communicateOutcome (.str "x") true = none :=
  ⟨by decide, by decide,
    ((communicate_outcome [.readNoise "x", .readCmd .endCmd] (.str "x") (by decide)).1
      (by decide)).1,
    ((communicate_outcome [.readNoise "x", .readCmd .endCmd] (.str "x") (by decide)).1
      (by decide)).2⟩

/-! ## Lemmas: transport disconnect arbitration -/

theorem cd_quiet (classify : String → Exc) (s : TState)
    (hpd : s.protocolDisconnected = true) :
    consider_disconnect classify s = (s, []) := by
  unfold consider_disconnect
  by_cases h1 : ¬ s.execTaskDone = true
  · rw [if_pos h1]
  · rw [if_neg h1]
    by_cases h2 : s.subprocessTransportSet = true ∧ ¬ s.transportDisconnected = true
    · rw [if_pos h2]
    · rw [if_neg h2]
      cases hso : s.stderrOutput with
      | none => rfl
      | some t =>
        dsimp only
        rw [if_pos hpd]

theorem cd_spec (classify : String → Exc) (s : TState) :
    consider_disconnect classify s = (s, [])
    ∨ (s.protocolDisconnected = false
        ∧ s.execTaskDone = true
        ∧ (s.subprocessTransportSet = true → s.transportDisconnected = true)
        ∧ s.stderrOutput.isSome = true
        ∧ (consider_disconnect classify s).1 = { s with protocolDisconnected := true }
        ∧ ((consider_disconnect classify s).2
              = [.connectionLost (claimedDisconnectArg classify s)]
            ∨ ((consider_disconnect classify s).2 = [.assertFailed]
                ∧ s.returncode = none))) := by
  unfold consider_disconnect
  by_cases h1 : ¬ s.execTaskDone = true
  · rw [if_pos h1]
    exact Or.inl rfl
  · rw [if_neg h1]
    push_neg at h1
    by_cases h2 : s.subprocessTransportSet = true ∧ ¬ s.transportDisconnected = true
    · rw [if_pos h2]
      exact Or.inl rfl
    · rw [if_neg h2]
      cases hso : s.stderrOutput with
      | none => exact Or.inl rfl
      | some t =>
        dsimp only
        by_cases hpd : s.protocolDisconnected = true
        · rw [if_pos hpd]
          exact Or.inl rfl
        · rw [if_neg hpd]
          have hsub : s.subprocessTransportSet = true → s.transportDisconnected = true := by
            intro hx
            by_contra htd
            exact h2 ⟨hx, by simpa using htd⟩
          refine Or.inr ⟨by simpa using hpd, h1, hsub, rfl, ?_, ?_⟩
          · cases hexc : s.exception with
            | some e => rfl
            | none =>
              by_cases hcl : s.returncode = some 0 ∨ s.closed = true
              · rw [if_pos hcl]
              · rw [if_neg hcl]
                by_cases hsh : s.isSsh = true ∧ s.returncode = some 255
                · rw [if_pos hsh]
                · rw [if_neg hsh]
                  cases s.returncode <;> rfl
          · cases hexc : s.exception with
            | some e =>
              refine Or.inl ?_
              simp [claimedDisconnectArg, hexc]
            | none =>
              by_cases hcl : s.returncode = some 0 ∨ s.closed = true
              · rw [if_pos hcl]
                refine Or.inl ?_
                have hcl' : s.closed = true ∨ s.returncode = some 0 := hcl.symm
                simp [claimedDisconnectArg, hexc, hcl']
              · rw [if_neg hcl]
                have hcl' : ¬ (s.closed = true ∨ s.returncode = some 0) := fun hx => hcl hx.symm
                by_cases hsh : s.isSsh = true ∧ s.returncode = some 255
                · rw [if_pos hsh]
                  refine Or.inl ?_
                  have hclosed : s.closed = false := by
                    cases hc : s.closed
                    · rfl
                    · exact absurd (Or.inl hc) hcl'
                  simp [claimedDisconnectArg, hexc, hsh, hso, hclosed]
                · rw [if_neg hsh]
                  cases hrc : s.returncode with
                  | none => exact Or.inr ⟨rfl, rfl⟩
                  | some rc =>
                    refine Or.inl ?_
                    rw [hrc] at hcl' hsh
                    have hclosed : s.closed = false := by
                      cases hc : s.closed
                      · rfl
                      · exact absurd (Or.inl hc) hcl'
                    have hrc0 : ¬ rc = 0 := by
                      intro hx
                      exact hcl' (Or.inr (by rw [hx]))
                    have hnssh : ¬ (s.isSsh = true ∧ rc = 255) := by
                      intro hx
                      exact hsh ⟨hx.1, by rw [hx.2]⟩
                    simp [claimedDisconnectArg, hexc, hso, hrc, hclosed, hrc0, hnssh]

theorem cd_mem_connLost {classify : String → Exc} {s1 : TState} {arg : Option Exc}
    (h : ProtoCall.connectionLost arg ∈ (consider_disconnect classify s1).2) :
    (consider_disconnect classify s1).1.execTaskDone = true
    ∧ ((consider_disconnect classify s1).1.subprocessTransportSet = true →
        (consider_disconnect classify s1).1.transportDisconnected = true)
    ∧ (consider_disconnect classify s1).1.stderrOutput.isSome = true
    ∧ s1.protocolDisconnected = false
    ∧ (consider_disconnect classify s1).1.protocolDisconnected = true
    ∧ arg = claimedDisconnectArg classify (consider_disconnect classify s1).1 := by
  rcases cd_spec classify s1 with hq | ⟨hpd0, hexec, hsub, hstd, hpost, hcalls⟩
  · rw [hq] at h
    exact absurd h (by simp)
  · rcases hcalls with hc | ⟨hc, _⟩
    · rw [hc] at h
      simp only [List.mem_singleton, ProtoCall.connectionLost.injEq] at h
      subst h
      rw [hpost]
      exact ⟨hexec, hsub, hstd, hpd0, rfl, rfl⟩
    · rw [hc] at h
      exact absurd h (by simp)

theorem cd_quiet_pair (classify : String → Exc) (s1 : TState)
    (hpd : s1.protocolDisconnected = true) :
    (consider_disconnect classify s1).1.protocolDisconnected = true
    ∧ (consider_disconnect classify s1).2.countP isConnLost = 0 := by
  rw [cd_quiet classify s1 hpd]
  exact ⟨hpd, rfl⟩

theorem cd_count_quiet (classify : String → Exc) {s : TState}
    (hpd : s.protocolDisconnected = true) (ev : TEvent) :
    (stepT classify s ev).1.protocolDisconnected = true
    ∧ (stepT classify s ev).2.countP isConnLost = 0 := by
  cases ev with
  | execOk => exact ⟨hpd, rfl⟩
  | execCancelled => exact ⟨hpd, rfl⟩
  | execOSError e => exact ⟨hpd, rfl⟩
  | pipeData d => exact ⟨hpd, rfl⟩
  | processExited rc => exact ⟨hpd, rfl⟩
  | userClose e => exact ⟨hpd, rfl⟩
  | subConnectionLost exc => exact cd_quiet_pair classify _ hpd
  | interactionCompleted res =>
    cases res with
    | inl stderr => exact cd_quiet_pair classify _ hpd
    | inr exc => exact cd_quiet_pair classify _ hpd
  | pipeLost fd exc eofAccepts =>
    cases hx : (if exc = some Exc.brokenPipeError then none else exc) with
    | some e =>
      refine ⟨?_, ?_⟩ <;>
        (simp only [stepT, hx]
         first
         | exact hpd
         | rfl)
    | none =>
      refine ⟨?_, ?_⟩ <;>
        (simp only [stepT, hx]
         by_cases hc : fd = 1 ∧ ¬ s.closed = true
         · rw [if_pos hc]
           by_cases he : eofAccepts = true
           · rw [if_pos he]
             first
             | exact hpd
             | rfl
           · rw [if_neg he]
             first
             | exact hpd
             | rfl
         · rw [if_neg hc]
           first
           | exact hpd
           | rfl)

theorem stepT_connLost {classify : String → Exc} {s : TState} {ev : TEvent}
    {arg : Option Exc}
    (h : ProtoCall.connectionLost arg ∈ (stepT classify s ev).2) :
    (stepT classify s ev).1.execTaskDone = true
    ∧ ((stepT classify s ev).1.subprocessTransportSet = true →
        (stepT classify s ev).1.transportDisconnected = true)
    ∧ (stepT classify s ev).1.stderrOutput.isSome = true
    ∧ s.protocolDisconnected = false
    ∧ (stepT classify s ev).1.protocolDisconnected = true
    ∧ arg = claimedDisconnectArg classify (stepT classify s ev).1 := by
  cases ev with
  | execOk => exact absurd h (by simp [stepT])
  | execCancelled => exact absurd h (by simp [stepT])
  | execOSError e => exact absurd h (by simp [stepT])
  | pipeData d => exact absurd h (by simp [stepT])
  | processExited rc => exact absurd h (by simp [stepT])
  | userClose e => exact absurd h (by simp [stepT])
  | subConnectionLost exc => exact cd_mem_connLost h
  | interactionCompleted res =>
    cases res with
    | inl stderr => exact cd_mem_connLost h
    | inr e => exact cd_mem_connLost h
  | pipeLost fd exc eofAccepts =>
    exfalso
    cases hx : (if exc = some Exc.brokenPipeError then none else exc) with
    | some e =>
      simp only [stepT, hx] at h
      simp at h
    | none =>
      simp only [stepT, hx] at h
      by_cases hc : fd = 1 ∧ ¬ s.closed = true
      · rw [if_pos hc] at h
        by_cases he : eofAccepts = true
        · rw [if_pos he] at h
          simp at h
        · rw [if_neg he] at h
          simp at h
      · rw [if_neg hc] at h
        simp at h

theorem cd_pair_count (classify : String → Exc) (s1 : TState) :
    (consider_disconnect classify s1).2.countP isConnLost = 0
    ∨ ((consider_disconnect classify s1).2.countP isConnLost = 1
        ∧ (consider_disconnect classify s1).1.protocolDisconnected = true) := by
  rcases cd_spec classify s1 with hq | ⟨_, _, _, _, hpost, hcalls⟩
  · rw [hq]
    exact Or.inl rfl
  · rcases hcalls with hc | ⟨hc, _⟩
    · refine Or.inr ⟨by rw [hc]; rfl, by rw [hpost]⟩
    · refine Or.inl ?_
      rw [hc]
      rfl

theorem stepT_count (classify : String → Exc) (s : TState) (ev : TEvent) :
    (stepT classify s ev).2.countP isConnLost = 0
    ∨ ((stepT classify s ev).2.countP isConnLost = 1
        ∧ (stepT classify s ev).1.protocolDisconnected = true) := by
  cases ev with
  | execOk => exact Or.inl rfl
  | execCancelled => exact Or.inl rfl
  | execOSError e => exact Or.inl rfl
  | pipeData d => exact Or.inl rfl
  | processExited rc => exact Or.inl rfl
  | userClose e => exact Or.inl rfl
  | subConnectionLost exc => exact cd_pair_count classify _
  | interactionCompleted res =>
    cases res with
    | inl stderr => exact cd_pair_count classify _
    | inr e => exact cd_pair_count classify _
  | pipeLost fd exc eofAccepts =>
    refine Or.inl ?_
    cases hx : (if exc = some Exc.brokenPipeError then none else exc) with
    | some e =>
      simp only [stepT, hx]
      all_goals rfl
    | none =>
      simp only [stepT, hx]
      by_cases hc : fd = 1 ∧ ¬ s.closed = true
      · rw [if_pos hc]
        by_cases he : eofAccepts = true
        · rw [if_pos he]
          all_goals rfl
        · rw [if_neg he]
          all_goals rfl
      · rw [if_neg hc]
        all_goals rfl

theorem runT_quiet (classify : String → Exc) (s : TState) (evs : List TEvent)
    (hpd : s.protocolDisconnected = true) :
    (runT classify s evs).1.protocolDisconnected = true
    ∧ (runT classify s evs).2.countP isConnLost = 0 := by
  induction evs generalizing s with
  | nil => exact ⟨hpd, rfl⟩
  | cons ev evs ih =>
    have hstep := cd_count_quiet classify hpd ev
    have hrest := ih (stepT classify s ev).1 hstep.1
    refine ⟨hrest.1, ?_⟩
    show ((stepT classify s ev).2
        ++ (runT classify (stepT classify s ev).1 evs).2).countP isConnLost = 0
    rw [List.countP_append, hstep.2, hrest.2]

theorem runT_count (classify : String → Exc) (s : TState) (evs : List TEvent) :
    (runT classify s evs).2.countP isConnLost ≤ 1 := by
  induction evs generalizing s with
  | nil => exact Nat.zero_le 1
  | cons ev evs ih =>
    show ((stepT classify s ev).2
        ++ (runT classify (stepT classify s ev).1 evs).2).countP isConnLost ≤ 1
    rw [List.countP_append]
    rcases stepT_count classify s ev with h0 | ⟨h1, hpd⟩
    · rw [h0]
      simpa using ih (stepT classify s ev).1
    · rw [h1, (runT_quiet classify (stepT classify s ev).1 evs hpd).2]

/-! ## Claim theorems: transport disconnect (C3, C1) -/

/-- C3: over every sequence of event-loop callbacks delivered to a
freshly spawned `FernyTransport`, `connection_lost` reaches the user
protocol at most once; and at any step of the run where it is emitted,
the emitting state has the exec task finished, the subprocess transport
(when one was ever set) already disconnected, and the agent stderr
result (the resolved completion) captured. -/
theorem connection_lost_once (classify : String → Exc) (isSsh : Bool)
    (evs : List TEvent) :
    (runT classify (spawnState isSsh) evs).2.countP isConnLost ≤ 1
    ∧ (∀ pre ev post arg, evs = pre ++ ev :: post →
        ProtoCall.connectionLost arg
            ∈ (stepT classify (runT classify (spawnState isSsh) pre).1 ev).2 →
        (stepT classify (runT classify (spawnState isSsh) pre).1 ev).1.execTaskDone
            = true
        ∧ ((stepT classify (runT classify (spawnState isSsh) pre).1
              ev).1.subprocessTransportSet = true →
            (stepT classify (runT classify (spawnState isSsh) pre).1
              ev).1.transportDisconnected = true)
        ∧ (stepT classify (runT classify (spawnState isSsh) pre).1
            ev).1.stderrOutput.isSome = true) := by
  refine ⟨runT_count classify (spawnState isSsh) evs, ?_⟩
  intro pre ev post arg hsplit h
  have h2 := stepT_connLost h
  exact ⟨h2.1, h2.2.1, h2.2.2.1⟩

/-- Witness for C3: the run exec-ok, exit 255, subprocess disconnect,
agent completion with stderr `boom` emits `connection_lost` exactly once
(at the last step), with all three guard conditions holding there. -/
theorem connection_lost_once_witness :
    (runT (fun t => Exc.sshError t) (spawnState true)
        [TEvent.execOk, TEvent.processExited 255, TEvent.subConnectionLost none,
          TEvent.interactionCompleted (Sum.inl "boom")]).2.countP isConnLost ≤ 1
    ∧ (stepT (fun t => Exc.sshError t)
        (runT (fun t => Exc.sshError t) (spawnState true)
          [TEvent.execOk, TEvent.processExited 255,
            TEvent.subConnectionLost none]).1
        (TEvent.interactionCompleted (Sum.inl "boom"))).1.stderrOutput.isSome
        = true :=
  ⟨(connection_lost_once (fun t => Exc.sshError t) true
      [TEvent.execOk, TEvent.processExited 255, TEvent.subConnectionLost none,
        TEvent.interactionCompleted (Sum.inl "boom")]).1,
    ((connection_lost_once (fun t => Exc.sshError t) true
        [TEvent.execOk, TEvent.processExited 255, TEvent.subConnectionLost none,
          TEvent.interactionCompleted (Sum.inl "boom")]).2
      [TEvent.execOk, TEvent.processExited 255, TEvent.subConnectionLost none]
      (TEvent.interactionCompleted (Sum.inl "boom")) []
      (some (Exc.sshError "boom")) rfl (by decide)).2.2⟩

/-- C1: whenever a step of the transport (from any state reachable from
a fresh spawn) emits `connection_lost arg`, the argument follows the
priority rule of the spec: a recorded exception as-is; else `none` when
closed or return code 0; else, for ssh with return code 255, the
classification of the captured stderr; else `SubprocessError` with the
return code and stderr (`claimedDisconnectArg` restates that rule
verbatim; `consider_disconnect` is the translated code). -/
theorem connection_lost_argument (classify : String → Exc) (isSsh : Bool)
    (pre : List TEvent) (ev : TEvent) (arg : Option Exc)
    (h : ProtoCall.connectionLost arg
        ∈ (stepT classify (runT classify (spawnState isSsh) pre).1 ev).2) :
    arg = claimedDisconnectArg classify
        (stepT classify (runT classify (spawnState isSsh) pre).1 ev).1 :=
  (stepT_connLost h).2.2.2.2.2

/-- Witness for C1: in the run of the C3 witness, the emitted argument
is the ssh classification of the captured stderr `boom`, as the priority
rule dictates. -/
theorem connection_lost_argument_witness :
    ProtoCall.connectionLost (some (Exc.sshError "boom"))
        ∈ (stepT (fun t => Exc.sshError t)
            (runT (fun t => Exc.sshError t) (spawnState true)
              [TEvent.execOk, TEvent.processExited 255,
                TEvent.subConnectionLost none]).1
            (TEvent.interactionCompleted (Sum.inl "boom"))).2
    ∧ some (Exc.sshError "boom")
        = claimedDisconnectArg (fun t => Exc.sshError t)
            (stepT (fun t => Exc.sshError t)
              (runT (fun t => Exc.sshError t) (spawnState true)
                [TEvent.execOk, TEvent.processExited 255,
                  TEvent.subConnectionLost none]).1
              (TEvent.interactionCompleted (Sum.inl "boom"))).1 :=
  ⟨by decide,
    connection_lost_argument (fun t => Exc.sshError t) true
      [TEvent.execOk, TEvent.processExited 255, TEvent.subConnectionLost none]
      (TEvent.interactionCompleted (Sum.inl "boom"))
      (some (Exc.sshError "boom")) (by decide)⟩

end Ferny

